import Mathlib

/-!
# ReverseQR connector script: a verification development

A shallow embedding of `src/public/connect-script.js` (the connector page of
ReverseQR) and theorems about it.

Conventions of the embedding.

* A JavaScript string is the list of its characters (`JSString`).  The case
  mappings `toLowerCase` and `toUpperCase` are the ones of the ASCII letters;
  `String.prototype.toLowerCase` and `toUpperCase` agree with them on text of
  ASCII characters (`isAscii`), and the theorems that depend on a case mapping
  are stated for such text.
* A JavaScript number that holds an integer is an `Int`; `NaN` is `none` in an
  `Option Int`.  The program's doubles agree with these integers below `2^53`
  (`exactKeys` for the keys of a wordlist that `parseInt` reads).
* A function that can throw (an `async` function that can reject) returns an
  `Except JSError`.
* Platform services the script calls (WebCrypto, `fetch`, `TextDecoder`) are
  parameters of the definitions that use them.
-/

namespace ReverseQR

/-! ## Strings -/

/-- A JavaScript string, as the list of its characters. -/
abbrev JSString := List Char

/-- The characters matched by `\s` in a regular expression and removed by
`String.prototype.trim`: ECMAScript WhiteSpace and LineTerminator. -/
def isWhiteSpace (c : Char) : Bool :=
  c.toNat == 0x09 || c.toNat == 0x0A || c.toNat == 0x0B || c.toNat == 0x0C ||
  c.toNat == 0x0D || c.toNat == 0x20 || c.toNat == 0xA0 || c.toNat == 0x1680 ||
  (0x2000 ≤ c.toNat && c.toNat ≤ 0x200A) || c.toNat == 0x2028 || c.toNat == 0x2029 ||
  c.toNat == 0x202F || c.toNat == 0x205F || c.toNat == 0x3000 || c.toNat == 0xFEFF

/-- The characters matched by the class `[\s-]` of the tokenizer. -/
def isSeparator (c : Char) : Bool :=
  isWhiteSpace c || c.toNat == 0x2D

/-- The characters `.` does not match in a regular expression: the
ECMAScript line terminators. -/
def isLineTerminator (c : Char) : Bool :=
  c.toNat == 0x0A || c.toNat == 0x0D || c.toNat == 0x2028 || c.toNat == 0x2029

/-- A string of ASCII characters.  On such a string
`String.prototype.toLowerCase` changes the letters `A` to `Z` and nothing
else, and `String.prototype.toUpperCase` the letters `a` to `z` and nothing
else. -/
def isAscii (s : JSString) : Bool :=
  s.all (fun c => decide (c.toNat < 128))

/-- `s.toLowerCase()` for a string of ASCII characters (`isAscii`): the letters
`A` to `Z` are mapped to `a` to `z`.  The Unicode case mapping of the other
characters is not embedded; here they are kept. -/
def toLowerCase (s : JSString) : JSString :=
  s.map Char.toLower

/-- `s.toUpperCase()` for a string of ASCII characters (`isAscii`): the letters
`a` to `z` are mapped to `A` to `Z`.  The Unicode case mapping of the other
characters is not embedded; here they are kept. -/
def toUpperCase (s : JSString) : JSString :=
  s.map Char.toUpper

/-- `s.trim()`: leading and trailing white space removed. -/
def trim (s : JSString) : JSString :=
  (s.dropWhile isWhiteSpace).rdropWhile isWhiteSpace

/-- `s.includes(t)`. -/
def includes (s t : JSString) : Bool :=
  decide (t <:+: s)

/-- The pieces of `s.split(/[\s-]+/)`, scanning from the left; `inRun` says
that the previous character was a separator, so that a run of separators
ends one piece only. -/
def splitGo : JSString → Bool → List JSString
  | [], _ => [[]]
  | c :: cs, inRun =>
    if isSeparator c then
      if inRun then splitGo cs true else [] :: splitGo cs true
    else
      match splitGo cs false with
      | [] => [[c]]
      | p :: ps => (c :: p) :: ps

/-- `s.split(/[\s-]+/)`. -/
def splitSeparators (s : JSString) : List JSString :=
  splitGo s false

/-- `s.split(/[\s-]+/).filter(w => w)`: an empty string is falsy. -/
def splitWords (s : JSString) : List JSString :=
  (splitSeparators s).filter (fun w => !w.isEmpty)

/-- `words.join(sep)`. -/
def join (sep : JSString) : List JSString → JSString
  | [] => []
  | [w] => w
  | w :: rest => w ++ sep ++ join sep rest

/-! ## Numbers and hexadecimal -/

/-- The value of a hexadecimal digit, in either case. -/
def hexDigitValue (c : Char) : Option Nat :=
  if 48 ≤ c.toNat ∧ c.toNat ≤ 57 then some (c.toNat - 48)
  else if 97 ≤ c.toNat ∧ c.toNat ≤ 102 then some (c.toNat - 87)
  else if 65 ≤ c.toNat ∧ c.toNat ≤ 70 then some (c.toNat - 55)
  else none

/-- The value of the longest prefix of hexadecimal digits of a string, with
the number of digits read; `acc` is the value read so far. -/
def readHexDigits : JSString → Nat → Nat → Nat × Nat
  | [], acc, n => (acc, n)
  | c :: cs, acc, n =>
    match hexDigitValue c with
    | some d => readHexDigits cs (16 * acc + d) (n + 1)
    | none => (acc, n)

/-- The `0x` or `0X` prefix that `parseInt` removes for radix 16. -/
def stripHexPrefix : JSString → JSString
  | '0' :: 'x' :: rest => rest
  | '0' :: 'X' :: rest => rest
  | s => s

/-- `parseInt(s, 16)`: leading white space is skipped, a sign is read, a `0x`
prefix is removed and the longest prefix of hexadecimal digits is the value;
`none` is `NaN` (no digit).  The value is the exact integer; the number that
`parseInt` returns is this integer when it is below `2^53` in absolute value
and is rounded to a double above. -/
def parseInt16 (s : JSString) : Option Int :=
  let s1 := s.dropWhile isWhiteSpace
  let negative := s1.head? == some '-'
  let s2 := if s1.head? == some '-' || s1.head? == some '+' then s1.tail else s1
  let r := readHexDigits (stripHexPrefix s2) 0 0
  if r.2 = 0 then none
  else if negative then some (-(r.1 : Int)) else some (r.1 : Int)

/-- `n.toString(16)` for an integer `n`. -/
def toString16 (n : Int) : JSString :=
  if n < 0 then '-' :: Nat.toDigits 16 n.natAbs else Nat.toDigits 16 n.natAbs

/-- `s.padStart(2, '0')`. -/
def padStart2 (s : JSString) : JSString :=
  List.leftpad 2 '0' s

/-- The decimal text of an index in a template literal. -/
def decimal (n : Nat) : JSString :=
  Nat.toDigits 10 n

/-! ## Errors -/

/-- An exception of the script: an `Error` built by `new Error(message)`, or a
`TypeError` raised by the engine (calling a method of `null` or of a value that
has no such method, passing a value of the wrong type to a platform function),
or the `OperationError` of a WebCrypto operation that fails.  The messages of
the last two are engine-defined and contain none of the texts the script
looks for. -/
inductive JSError where
  | error (message : JSString)
  | typeError
  | operationError
  deriving DecidableEq, Repr

deriving instance DecidableEq for Except

/-! ## The connection-code codec (`decodePgpIfNeeded`) -/

/-- An element of a wordlist pair: a string, or another JSON value (on which
`.toLowerCase()` raises a `TypeError`). -/
inductive PairElem where
  | str (s : JSString)
  | other
  deriving DecidableEq, Repr

/-- A value of the wordlist object as the search sees it: a value of length
two with its two elements, or a value that is falsy or whose length is not
two. -/
inductive WordlistEntry where
  | pair (odd even : PairElem)
  | invalid
  deriving DecidableEq, Repr

/-- `Object.entries(PGP_WORDLIST)`: the keys with their values, in the order
of the enumeration. -/
abbrev Wordlist := List (JSString × WordlistEntry)

/-- The character `"`. -/
def dquote : Char := Char.ofNat 34

/-- The message of the error thrown for an entry that is not a pair. -/
def invalidEntryMessage (hexByte : JSString) : JSString :=
  "Invalid wordlist entry for ".toList ++ hexByte

/-- The message of the error thrown for a word that is in no entry. -/
def unknownWordMessage (i : Nat) (word : JSString) : JSString :=
  "Unknown PGP word at position ".toList ++ decimal i ++ ": ".toList ++ [dquote] ++ word ++
    [dquote] ++ ". Word was forgotten or mistyped.".toList

/-- The message of the error thrown for a word of the wrong parity class. -/
def invalidWordMessage (i : Nat) (word : JSString) (expectedParity : Nat) : JSString :=
  "Invalid word at position ".toList ++ decimal i ++ ": ".toList ++ [dquote] ++ word ++
    [dquote] ++ " is for ".toList ++ (if expectedParity = 1 then "odd".toList else "even".toList) ++
    " bytes.".toList

/-- The inner loop of `decodePgpIfNeeded`: the search of one word through the
entries.  The result is `none` when no entry has the word (`foundByte` stays
`null`), else `foundByte` (`parseInt(hexByte, 16)`, which may be `NaN`) and
`expectedParity`. -/
def searchWordlist (word : JSString) : Wordlist → Except JSError (Option (Option Int × Nat))
  | [] => .ok none
  | (hexByte, .invalid) :: _ => .error (.error (invalidEntryMessage hexByte))
  | (hexByte, .pair (.str odd) (.str even)) :: rest =>
    if word = toLowerCase odd then .ok (some (parseInt16 hexByte, 1))
    else if word = toLowerCase even then .ok (some (parseInt16 hexByte, 0))
    else searchWordlist word rest
  | (_, .pair _ _) :: _ => .error .typeError

/-- The test `(foundByte % 2) !== expectedParity`; `%` is the remainder of the
truncated division, and `NaN` differs from every number. -/
def parityMismatch (foundByte : Option Int) (expectedParity : Nat) : Bool :=
  match foundByte with
  | none => true
  | some b => Int.tmod b 2 != (expectedParity : Int)

/-- The outer loop of `decodePgpIfNeeded`, from index `i` on: the bytes of the
words, or the first exception. -/
def decodeWords (wl : Wordlist) : Nat → List JSString → Except JSError (List (Option Int))
  | _, [] => .ok []
  | i, word :: rest =>
    match searchWordlist word wl with
    | .error e => .error e
    | .ok none => .error (.error (unknownWordMessage i word))
    | .ok (some (foundByte, expectedParity)) =>
      if parityMismatch foundByte expectedParity then
        .error (.error (invalidWordMessage i word expectedParity))
      else
        match decodeWords wl (i + 1) rest with
        | .error e => .error e
        | .ok bytes => .ok (foundByte :: bytes)

/-- `b.toString(16).padStart(2, '0').toUpperCase()`; the text of `NaN` is
`NaN`. -/
def byteToHex (b : Option Int) : JSString :=
  match b with
  | none => toUpperCase (padStart2 "NaN".toList)
  | some n => toUpperCase (padStart2 (toString16 n))

/-- The test of the `catch` block: the message names one of the two
validation errors. -/
def isValidationError (e : JSError) : Bool :=
  match e with
  | .error message =>
    includes message "Unknown PGP word".toList || includes message "Invalid word".toList
  | .typeError => false
  | .operationError => false

/-- `decodePgpIfNeeded(input)`.  `wordlist` is `PGP_WORDLIST` as it is after
the load has been tried: `none` when it is still unset. -/
def decodePgpIfNeeded (wordlist : Option Wordlist) (input : JSString) : Except JSError JSString :=
  let trimmed := trim (toLowerCase input)
  let words := splitWords trimmed
  if words.length = 1 then .ok (toUpperCase trimmed)
  else
    match wordlist with
    | none => .error (.error "Failed to load PGP wordlist".toList)
    | some wl =>
      match decodeWords wl 0 words with
      | .ok bytes => .ok (join [] (bytes.map byteToHex))
      | .error e => if isValidationError e then .error e else .ok (toUpperCase trimmed)

/-! ## The encoder and well-formed wordlists -/

/-- The bytes of a hex code, two digits each. -/
def codeBytes : JSString → List (Option Int)
  | c1 :: c2 :: rest => parseInt16 [c1, c2] :: codeBytes rest
  | _ => []

/-- The word of a byte: of the pair of the entry whose key is the hex value
of the byte, the first word for an odd byte and the second for an even byte.
A byte without a pair of words has the empty word. -/
def wordOfByte (wl : Wordlist) (b : Option Int) : JSString :=
  match wl.find? (fun e => parseInt16 e.1 == b) with
  | some (_, .pair (.str odd) (.str even)) => if parityMismatch b 0 then odd else even
  | _ => []

/-- Modelled from the spec: the encoder of the word codec is not in the
connector script (the spec has it "externally, not in this core").
`encodeAsWords` writes each byte of the code as the word of its wordlist pair
selected by the parity of the byte, and joins the words with spaces. -/
def encodeAsWords (wl : Wordlist) (code : JSString) : JSString :=
  join [' '] ((codeBytes code).map (wordOfByte wl))

/-- The words of a wordlist, entry by entry. -/
def wordsOf : Wordlist → List JSString
  | [] => []
  | (_, .pair (.str odd) (.str even)) :: rest => odd :: even :: wordsOf rest
  | _ :: rest => wordsOf rest

/-- A key of two hexadecimal digits. -/
def isHexKey (k : JSString) : Bool :=
  k.length == 2 && k.all (fun c => (hexDigitValue c).isSome)

/-- An entry that is a pair of two strings. -/
def isWordPair : WordlistEntry → Bool
  | .pair (.str _) (.str _) => true
  | _ => false

/-- A well-formed wordlist in the words of the spec: one entry per byte, keyed
by its two-digit hex value, each entry a pair of words, all words distinct and
free of white space and hyphens. -/
structure WellFormedAsStated (wl : Wordlist) : Prop where
  hexKeys : ∀ e ∈ wl, isHexKey e.1 = true
  onePerByte : (wl.map (fun e => parseInt16 e.1)).Perm
    ((List.range 256).map (fun (b : Nat) => some (b : Int)))
  wordPairs : ∀ e ∈ wl, isWordPair e.2 = true
  distinct : (wordsOf wl).Nodup
  noSeparator : ∀ w ∈ wordsOf wl, ∀ c ∈ w, isSeparator c = false

/-- A well-formed wordlist for the decoder, which compares lower-cased words
and drops empty tokens: the words are moreover not empty and distinct when
letter case is ignored. -/
structure WellFormed (wl : Wordlist) : Prop where
  asStated : WellFormedAsStated wl
  nonEmpty : ∀ w ∈ wordsOf wl, w ≠ []
  distinctLower : ((wordsOf wl).map toLowerCase).Nodup

/-- The words of the wordlist are made of ASCII characters. -/
def asciiWords (wl : Wordlist) : Bool :=
  (wordsOf wl).all isAscii

/-- The keys of the wordlist are read exactly by `parseInt`: the integer of
each key is below `2^53` in absolute value. -/
def exactKeys (wl : Wordlist) : Bool :=
  wl.all (fun e =>
    match parseInt16 e.1 with
    | none => true
    | some n => decide (n.natAbs < 2 ^ 53))

/-- An upper-case hexadecimal digit. -/
def isUpperHexDigit (c : Char) : Bool :=
  (48 ≤ c.toNat && c.toNat ≤ 57) || (65 ≤ c.toNat && c.toNat ≤ 70)

/-- A valid connection code: upper-case hexadecimal, a whole number of bytes,
at least two bytes. -/
def ValidCode (code : JSString) : Prop :=
  code.all isUpperHexDigit = true ∧ code.length % 2 = 0 ∧ 4 ≤ code.length

instance (code : JSString) : Decidable (ValidCode code) := by
  unfold ValidCode; infer_instance

/-- A wordlist with the words `o00`, `e00`, ..., `off`, `eff`; `oddTag` and
`evenTag` are the first letters of the odd and of the even words. -/
def taggedWordlist (oddTag evenTag : Char) : Wordlist :=
  (List.range 256).map (fun (b : Nat) =>
    (byteToHex (some (b : Int)),
      .pair (.str (oddTag :: padStart2 (toString16 b))) (.str (evenTag :: padStart2 (toString16 b)))))

/-- A well-formed wordlist. -/
def sampleWordlist : Wordlist := taggedWordlist 'o' 'e'

/-- A wordlist whose odd and even words differ by letter case only. -/
def caseWordlist : Wordlist := taggedWordlist 'x' 'X'

/-- A wordlist whose entry `00` has an empty even word. -/
def emptyWordWordlist : Wordlist :=
  ("00".toList, .pair (.str "o00".toList) (.str [])) :: sampleWordlist.tail

/-- A string without a separator of the tokenizer. -/
def SepFree (w : JSString) : Prop := ∀ c ∈ w, isSeparator c = false

/-- A number that is an integer from 0 to 255. -/
def isByte : Option Int → Bool
  | some b => decide (0 ≤ b) && decide (b < 256)
  | none => false

/-- The upper-case hexadecimal digits. -/
def upperHexDigits : List Char := "0123456789ABCDEF".toList

/-- The hexadecimal digits. -/
def hexDigits : List Char := "0123456789abcdefABCDEF".toList

/-- The rank of a word of a tagged wordlist: twice the byte, plus one for an
even word; the empty word has the rank of `e00`. -/
def wordRank (evenTag : Char) : JSString → Nat
  | [] => 1
  | c :: rest => 2 * (readHexDigits rest 0 0).1 + (if c = evenTag then 1 else 0)

/-- A list of numbers in strictly increasing order. -/
def strictlyIncreasing : List Nat → Bool
  | [] => true
  | [_] => true
  | a :: b :: rest => decide (a < b) && strictlyIncreasing (b :: rest)

/-- The conditions of `WellFormedAsStated` as a test, for a wordlist whose
words are in the order of their ranks. -/
def checkAsStated (evenTag : Char) (wl : Wordlist) : Bool :=
  wl.all (fun e => isHexKey e.1) &&
  (wl.map (fun e => parseInt16 e.1) == (List.range 256).map (fun (b : Nat) => some (b : Int))) &&
  wl.all (fun e => isWordPair e.2) &&
  strictlyIncreasing ((wordsOf wl).map (wordRank evenTag)) &&
  (wordsOf wl).all (fun w => w.all (fun c => !isSeparator c))

/-- The further conditions of `WellFormed` as a test. -/
def checkWellFormed (evenTag : Char) (wl : Wordlist) : Bool :=
  checkAsStated evenTag wl && (wordsOf wl).all (fun w => !w.isEmpty) &&
  strictlyIncreasing (((wordsOf wl).map toLowerCase).map (wordRank evenTag))

/-- The token `word` is the word of parity class `cls` (1 for odd, 0 for
even) in the entry of byte `b`, as the decoder compares it (lower-cased). -/
def IsWordOf (wl : Wordlist) (word : JSString) (cls b : Nat) : Prop :=
  ∃ k o e, (k, WordlistEntry.pair (.str o) (.str e)) ∈ wl ∧ parseInt16 k = some (b : Int) ∧
    ((cls = 1 ∧ word = toLowerCase o) ∨ (cls = 0 ∧ word = toLowerCase e))

/-- A token that decodes cleanly: the search of the decoder finds it in an
entry, and the byte of the entry has the parity of the class it was found
in. -/
def DecodesCleanly (wl : Wordlist) (word : JSString) : Prop :=
  ∃ b cls, searchWordlist word wl = .ok (some (b, cls)) ∧ parityMismatch b cls = false

/-- A token of the wrong parity: the odd-class word of an even byte or the
even-class word of an odd byte. -/
def HasWrongParity (wl : Wordlist) (word : JSString) (cls : Nat) : Prop :=
  ∃ b, IsWordOf wl word cls b ∧ b % 2 ≠ cls

/-! ## Hexadecimal transport encoding -/

/-- `arrayToHex(arr)`: `Array.from(arr).map(b => b.toString(16).padStart(2, '0')).join('')`. -/
def arrayToHex (arr : List Nat) : JSString :=
  join [] (arr.map (fun (b : Nat) => padStart2 (toString16 (b : Int))))

/-- All the matches of `/.{1,2}/g` in a string, from the left: two characters
where there are two, and no line terminator. -/
def matchPairs : JSString → List JSString
  | [] => []
  | [c] => if isLineTerminator c then [] else [[c]]
  | c1 :: c2 :: rest =>
    if isLineTerminator c1 then matchPairs (c2 :: rest)
    else if isLineTerminator c2 then [c1] :: matchPairs rest
    else [c1, c2] :: matchPairs rest

/-- The element a number becomes in a `Uint8Array`: `NaN` is 0, an integer
is taken modulo 256. -/
def toUint8 : Option Int → Nat
  | none => 0
  | some v => (v % 256).toNat

/-- `new Uint8Array(s.match(/.{1,2}/g).map(b => parseInt(b, 16)))`; `match`
gives `null` when nothing matches, and `null.map` raises a `TypeError`. -/
def hexToBytes (s : JSString) : Except JSError (List Nat) :=
  match matchPairs s with
  | [] => .error .typeError
  | groups => .ok (groups.map (fun g => toUint8 (parseInt16 g)))

/-! ## The verification phrase (`hashBuffer`, `hashToWords`) -/

/-- The numbers `parseInt(hashHex.substr(i, 2), 16)` for `i = 0, 2, 4, ...`. -/
def hashBytes : JSString → List (Option Int)
  | [] => []
  | [c] => [parseInt16 [c]]
  | c1 :: c2 :: rest => parseInt16 [c1, c2] :: hashBytes rest

/-- `hashBytes[i] || 0`: a missing element, `NaN` and 0 give 0. -/
def byteOrZero (bytes : List (Option Int)) (i : Nat) : Int :=
  match bytes[i]? with
  | some (some v) => v
  | _ => 0

/-- `(byte1 << 8) | byte2` on numbers of at most two hexadecimal digits, for
which the shift does not leave the 32-bit range. -/
def twoBytes (byte1 byte2 : Int) : Int :=
  Int.lor (byte1 * 256) byte2

/-- `wordlist[twoBytes % listLength]` as `join` writes it: the remainder is
the one of the truncated division, it is `NaN` for an empty list, and an
element that does not exist is written as the empty string. -/
def phraseWord (wordlist : List JSString) (n : Int) : JSString :=
  if wordlist.length = 0 then []
  else if Int.tmod n wordlist.length < 0 then []
  else wordlist.getD (Int.tmod n wordlist.length).toNat []

/-- `hashToWords(hashHex)`; `wordlist` is the `eff_wordlist` of the fetched
`/eff_wordlist.json`. -/
def hashToWords (wordlist : List JSString) (hashHex : JSString) : JSString :=
  join [' '] ((List.range 3).map (fun i =>
    phraseWord wordlist
      (twoBytes (byteOrZero (hashBytes hashHex) (i * 2)) (byteOrZero (hashBytes hashHex) (i * 2 + 1)))))

/-- `hashBuffer(buffer)`: the SHA-256 digest in lower-case hex; `sha256` is
`crypto.subtle.digest('SHA-256', ·)`. -/
def hashBuffer (sha256 : List Nat → List Nat) (buffer : List Nat) : JSString :=
  join [] ((sha256 buffer).map (fun (b : Nat) => padStart2 (toString16 (b : Int))))

/-- A two-digit hexadecimal string and its value. -/
def HexOfByte (s : JSString) (b : Nat) : Prop :=
  ∃ c1 c2 d1 d2, s = [c1, c2] ∧ hexDigitValue c1 = some d1 ∧ hexDigitValue c2 = some d2 ∧
    b = 16 * d1 + d2

/-! ## The key exchange (`computeSharedSecret`, `deriveKeyFromSharedSecret`) -/

/-- The curve of the ECDH of WebCrypto: its points are a commutative group
`G`, `base` is the base point and `encodeX` gives the 256 bits that
`deriveBits` returns for a shared point. -/
structure Curve (G : Type) where
  base : G
  encodeX : G → List Nat

/-- A key pair: the private scalar and the public point. -/
structure KeyPair (G : Type) where
  privateKey : Nat
  publicKey : G

/-- A valid key pair: the public point is the private scalar times the base
point. -/
def ValidKeyPair {G : Type} [AddCommMonoid G] (curve : Curve G) (kp : KeyPair G) : Prop :=
  kp.publicKey = kp.privateKey • curve.base

/-- `computeSharedSecret(privateKey, otherPublicKey)`: the bits of the ECDH
shared point. -/
def computeSharedSecret {G : Type} [AddCommMonoid G] (curve : Curve G) (privateKey : Nat)
    (otherPublicKey : G) : List Nat :=
  curve.encodeX (privateKey • otherPublicKey)

/-- `deriveKeyFromSharedSecret(sharedSecret)`; `hkdf salt info ikm` is the
256-bit HKDF-SHA-256 of WebCrypto, called with a salt of 32 zero bytes and the
bytes of `ReverseQR-Encryption-Key`. -/
def deriveKeyFromSharedSecret (hkdf : List Nat → List Nat → List Nat → List Nat)
    (sharedSecret : List Nat) : List Nat :=
  hkdf (List.replicate 32 0) ("ReverseQR-Encryption-Key".toList.map Char.toNat) sharedSecret

/-! ## The receive pipeline -/

/-- The `timestamp` of a retrieved message: absent (`undefined` or `null`), a
number or a string. -/
inductive Timestamp where
  | absent
  | num (n : Int)
  | str (s : JSString)
  deriving DecidableEq, Repr

/-- The truthiness of a timestamp: a number other than 0, a string other than
the empty one. -/
def Timestamp.truthy : Timestamp → Bool
  | .absent => false
  | .num n => n != 0
  | .str s => !s.isEmpty

/-- A file descriptor of a retrieved message. -/
structure ReceivedFile where
  originalName : Option JSString
  filename : Option JSString
  encryptedName : Option JSString
  nameIv : Option JSString
  nameAuthTag : Option JSString
  deriving DecidableEq, Repr

/-- A message of the retrieval endpoint; a field that is absent is `none`. -/
structure ReceivedMessage where
  type : JSString
  ciphertext : Option JSString
  iv : Option JSString
  authTag : Option JSString
  text : Option JSString
  files : List ReceivedFile
  timestamp : Timestamp
  deriving DecidableEq, Repr

/-- `displayedReceivedMessageIds.has(id)`. -/
def setHas (displayed : List Timestamp) (id : Timestamp) : Bool :=
  displayed.contains id

/-- `displayedReceivedMessageIds.add(id)`: a `Set` keeps one copy of a value,
in the order of insertion. -/
def setAdd (displayed : List Timestamp) (id : Timestamp) : List Timestamp :=
  if setHas displayed id then displayed else displayed ++ [id]

/-- The filter of `fetchAndDisplayReceivedMessages`:
`msgId && !displayedReceivedMessageIds.has(msgId)`. -/
def newMessagesOf (displayed : List Timestamp) (messages : List ReceivedMessage) :
    List ReceivedMessage :=
  messages.filter (fun msg => msg.timestamp.truthy && !setHas displayed msg.timestamp)

/-- The `forEach` that tracks the new messages:
`if (msg.timestamp) displayedReceivedMessageIds.add(msg.timestamp)`. -/
def trackDisplayed (displayed : List Timestamp) (newMessages : List ReceivedMessage) :
    List Timestamp :=
  newMessages.foldl (fun d msg => if msg.timestamp.truthy then setAdd d msg.timestamp else d)
    displayed

/-- The dedup step of `fetchAndDisplayReceivedMessages` on the retrieved
`data.messages`: the set of displayed identifiers afterwards, and the messages
passed on to `displayReceivedMessages`. -/
def dedupStep (displayed : List Timestamp) (messages : List ReceivedMessage) :
    List Timestamp × List ReceivedMessage :=
  if messages.length > 0 then
    if (newMessagesOf displayed messages).length > 0 then
      (trackDisplayed displayed (newMessagesOf displayed messages), newMessagesOf displayed messages)
    else (displayed, [])
  else (displayed, [])

/-- The platform services of the transport: WebCrypto's `importKey` for a raw
AES-GCM key, `encrypt` and `decrypt` for AES-GCM with their key, nonce and
data (`decrypt` gives `none` when it rejects), and the UTF-8 `TextEncoder` and
`TextDecoder`. -/
structure Platform (CryptoKey : Type) where
  importKey : List Nat → CryptoKey
  encrypt : CryptoKey → List Nat → List Nat → List Nat
  decrypt : CryptoKey → List Nat → List Nat → Option (List Nat)
  encodeText : JSString → List Nat
  decodeText : List Nat → JSString

/-- A value passed where WebCrypto takes a key: the raw key bytes (a
`Uint8Array`, as `encryptionKey` is) or an imported `CryptoKey`. -/
inductive KeyValue (CryptoKey : Type) where
  | raw (bytes : List Nat)
  | cryptoKey (key : CryptoKey)

/-- The placeholder of `decryptText`. -/
def unableToDecrypt : JSString := "[Unable to decrypt]".toList

/-- The placeholder of the text branch of `displayReceivedMessages`. -/
def unableToDecryptMessage : JSString := "[Unable to decrypt message]".toList

/-- The `try` block of `decryptText`.  `crypto.subtle.decrypt` takes a
`CryptoKey` and rejects with a `TypeError` for another value. -/
def decryptTextBody {K : Type} (p : Platform K) (ciphertext iv authTag : JSString)
    (key : KeyValue K) : Except JSError JSString :=
  match hexToBytes ciphertext with
  | .error e => .error e
  | .ok ciphertextBytes =>
    match hexToBytes iv with
    | .error e => .error e
    | .ok ivBytes =>
      match hexToBytes authTag with
      | .error e => .error e
      | .ok authTagBytes =>
        match key with
        | .raw _ => .error .typeError
        | .cryptoKey k =>
          match p.decrypt k ivBytes (ciphertextBytes ++ authTagBytes) with
          | none => .error .operationError
          | some decryptedBuffer => .ok (p.decodeText decryptedBuffer)

/-- `decryptText(ciphertext, iv, authTag, key)`: the `try` block, and the
placeholder in the `catch` block. -/
def decryptText {K : Type} (p : Platform K) (ciphertext iv authTag : JSString)
    (key : KeyValue K) : Except JSError JSString :=
  match decryptTextBody p ciphertext iv authTag key with
  | .ok plaintext => .ok plaintext
  | .error _ => .ok unableToDecrypt

/-- The truthiness of a field that holds a string: present and not empty. -/
def truthy : Option JSString → Bool
  | some s => !s.isEmpty
  | none => false

/-- What `displayReceivedMessages` shows for one message: the text of a text
message, the display names of the files of a files message, or an empty
entry for another type.  The HTML around them is not modelled. -/
inductive Shown where
  | text (content : JSString)
  | files (names : List JSString)
  | empty
  deriving DecidableEq, Repr

/-- The name `f.originalName || f.filename` as `escapeHtml` takes it: on
`undefined` or `null` its `unsafe.replace` raises a `TypeError`. -/
def plainName (f : ReceivedFile) : Except JSError JSString :=
  match (if truthy f.originalName then f.originalName else f.filename) with
  | some name => .ok name
  | none => .error .typeError

/-- The display name of a file: `f.originalName || f.filename`, replaced by
the decrypted name when the encrypted name, its nonce and tag and the key
are there. -/
def displayName {K : Type} (p : Platform K) (encryptionKey : Option (List Nat))
    (f : ReceivedFile) : Except JSError JSString :=
  match encryptionKey with
  | some key =>
    if truthy f.encryptedName && truthy f.nameIv && truthy f.nameAuthTag then
      decryptText p (f.encryptedName.getD []) (f.nameIv.getD []) (f.nameAuthTag.getD [])
        (.raw key)
    else plainName f
  | none => plainName f

/-- A file descriptor with a name to show when its name is not decrypted. -/
def hasName (f : ReceivedFile) : Bool :=
  truthy f.originalName || f.filename.isSome

/-- The display names of the files of a message, in order. -/
def displayNames {K : Type} (p : Platform K) (encryptionKey : Option (List Nat)) :
    List ReceivedFile → Except JSError (List JSString)
  | [] => .ok []
  | f :: rest =>
    match displayName p encryptionKey f with
    | .error e => .error e
    | .ok name =>
      match displayNames p encryptionKey rest with
      | .error e => .error e
      | .ok names => .ok (name :: names)

/-- The body of the loop of `displayReceivedMessages` for one message;
`encryptionKey` is the global, `none` when it is `null`. -/
def displayOne {K : Type} (p : Platform K) (encryptionKey : Option (List Nat))
    (msg : ReceivedMessage) : Except JSError Shown :=
  if msg.type = "text".toList then
    match encryptionKey with
    | some key =>
      if truthy msg.ciphertext && truthy msg.iv && truthy msg.authTag then
        match decryptText p (msg.ciphertext.getD []) (msg.iv.getD []) (msg.authTag.getD [])
            (.raw key) with
        | .ok decrypted => .ok (.text decrypted)
        | .error e => .error e
      else if truthy msg.text then .ok (.text (msg.text.getD []))
      else .ok (.text unableToDecryptMessage)
    | none =>
      if truthy msg.text then .ok (.text (msg.text.getD []))
      else .ok (.text unableToDecryptMessage)
  else if msg.type = "files".toList then
    match displayNames p encryptionKey msg.files with
    | .ok names => .ok (.files names)
    | .error e => .error e
  else .ok .empty

/-- `displayReceivedMessages(messages)`: the entries appended to the list, in
the order of the messages; an exception ends the loop. -/
def displayReceivedMessages {K : Type} (p : Platform K) (encryptionKey : Option (List Nat)) :
    List ReceivedMessage → Except JSError (List Shown)
  | [] => .ok []
  | msg :: rest =>
    match displayOne p encryptionKey msg with
    | .error e => .error e
    | .ok shown =>
      match displayReceivedMessages p encryptionKey rest with
      | .error e => .error e
      | .ok more => .ok (shown :: more)

/-- The text envelope that `sendMessage` appends to its form: the hex of the
AES-GCM output (which holds the tag), the hex of the nonce, and an empty
`authTag`.  `iv` is the nonce of `crypto.getRandomValues`. -/
structure TextEnvelope where
  ciphertext : JSString
  iv : JSString
  authTag : JSString
  deriving DecidableEq, Repr

/-- The text branch of the send path of `sendMessage`. -/
def sendTextEnvelope {K : Type} (p : Platform K) (encryptionKey : List Nat) (iv : List Nat)
    (text : JSString) : TextEnvelope :=
  { ciphertext := arrayToHex (p.encrypt (p.importKey encryptionKey) iv (p.encodeText text))
    iv := arrayToHex iv
    authTag := [] }

/-- The envelope as a retrieved text message, its fields unchanged. -/
def asReceived (env : TextEnvelope) (timestamp : Timestamp) : ReceivedMessage :=
  { type := "text".toList
    ciphertext := some env.ciphertext
    iv := some env.iv
    authTag := some env.authTag
    text := none
    files := []
    timestamp := timestamp }

/-- A platform for examples: keys are their bytes, the cipher leaves the data
as it is, and a character is encoded as its code. -/
def samplePlatform : Platform (List Nat) :=
  { importKey := fun k => k
    encrypt := fun _ _ data => data
    decrypt := fun _ _ data => some data
    encodeText := fun s => s.map Char.toNat
    decodeText := fun b => b.map Char.ofNat }

/-- A curve for examples: the integers, with base point 1. -/
def sampleCurve : Curve Int :=
  { base := 1, encodeX := fun x => [x.toNat] }

/-- A retrieved text message whose timestamp is 0. -/
def zeroTimestampMessage : ReceivedMessage :=
  { type := "text".toList
    ciphertext := none
    iv := none
    authTag := none
    text := some "hello".toList
    files := []
    timestamp := .num 0 }

/-- A session key for examples. -/
def sampleKey : List Nat := List.replicate 32 7

/-- A nonce for examples. -/
def sampleNonce : List Nat := List.replicate 12 1

/-- A batch for examples: a text message whose fields do not decrypt, and the
message with timestamp 0, which has a plain text. -/
def sampleBatch : List ReceivedMessage :=
  [{ type := "text".toList
     ciphertext := some "6869".toList
     iv := some "zz".toList
     authTag := some "00".toList
     text := none
     files := []
     timestamp := .num 1700000000000 },
   zeroTimestampMessage]

/-! ## Public keys in hexadecimal (`exportPublicKey`, `importPublicKey`) -/

/-- The lower-case hexadecimal digits. -/
def lowerHexDigits : List Char := "0123456789abcdef".toList

/-- `exportPublicKey(publicKey)`: the raw exported point, two hexadecimal
digits a byte; `exportKey` is `crypto.subtle.exportKey('raw', ·)`. -/
def exportPublicKey {G : Type} (exportKey : G → List Nat) (publicKey : G) : JSString :=
  join [] ((exportKey publicKey).map (fun (b : Nat) => padStart2 (toString16 (b : Int))))

/-- The identifiers displayed after a sequence of retrieved batches. -/
def dedupRuns (displayed : List Timestamp) (batches : List (List ReceivedMessage)) :
    List Timestamp :=
  batches.foldl (fun d batch => (dedupStep d batch).1) displayed

/-! ## The session: globals, promises, timers and effects -/

/-- A callback given to `setTimeout`: the timeout of the wait of
`waitForMainPublicKey` with this number, or `setupWebSocket`. -/
inductive TimerCallback where
  | waitTimeout (wait : Nat)
  | setupWebSocket
  deriving DecidableEq, Repr

/-- The encrypted parts of one file in the form of `sendMessage`: the hex of
the nonce, of the encrypted name and of the nonce of the name. -/
structure FilePart where
  ivHex : JSString
  encryptedNameHex : JSString
  nameIvHex : JSString
  deriving DecidableEq, Repr

/-- The form posted to `/api/message/send`. -/
inductive SendForm where
  | text (envelope : TextEnvelope)
  | files (parts : List FilePart)
  deriving DecidableEq, Repr

/-- What a handler does to the outside: messages shown, the console, the
WebSocket, timers set, WebCrypto calls and requests to the relay.
`showErrorOf pre e` is `showError(pre + e.message)`. -/
inductive Effect where
  | showError (message : JSString)
  | showErrorOf (pre : JSString) (e : JSError)
  | showRateLimitError
  | showSuccess (message : JSString)
  | consoleError (e : JSError)
  | setupWebSocket
  | subscribe (code : Option JSString)
  | setTimeout (callback : TimerCallback) (ms : Nat)
  | keyExchange (mainPublicKeyHex : JSString)
  | fingerprint (keyWords : JSString)
  | encrypt (data : List Nat)
  | post (form : SendForm)
  | retrieve (code : Option JSString)
  | display (messages : List ReceivedMessage)
  deriving DecidableEq, Repr

/-- The state of the promise of a wait. -/
inductive PromiseState where
  | pending
  | resolved
  | rejected (e : JSError)
  deriving DecidableEq, Repr

/-- A selected file: its name, size and bytes. -/
structure SelectedFile where
  name : JSString
  size : Nat
  file : List Nat
  deriving DecidableEq, Repr

/-- An entry of the history of sent messages. -/
structure SentMessage where
  type : JSString
  text : JSString
  files : List (JSString × Nat)
  timestamp : Int
  deriving DecidableEq, Repr

/-- The globals of the script, with the promises made by
`waitForMainPublicKey` (`mainKeyResolver` holds the number of the promise whose
`resolve` it is), the timers that are set and have not fired, and the effects
so far.  `wsOpen` is `ws && ws.readyState === WebSocket.OPEN`. -/
structure Session (G : Type) where
  selectedFiles : List SelectedFile
  sentMessages : List SentMessage
  connectionCode : Option JSString
  encryptionKey : Option (List Nat)
  connectedMain : Bool
  wsOpen : Bool
  wsToken : Option JSString
  dhKeyPairPending : Option (KeyPair G)
  mainKeyResolver : Option Nat
  displayedReceivedMessageIds : List Timestamp
  waits : List PromiseState
  timers : List TimerCallback
  log : List Effect

/-- The globals when the script is loaded. -/
def Session.initial (G : Type) : Session G :=
  { selectedFiles := []
    sentMessages := []
    connectionCode := none
    encryptionKey := none
    connectedMain := false
    wsOpen := false
    wsToken := none
    dhKeyPairPending := none
    mainKeyResolver := none
    displayedReceivedMessageIds := []
    waits := []
    timers := []
    log := [] }

/-- An effect added to the log. -/
def Session.emit {G : Type} (s : Session G) (e : Effect) : Session G :=
  { s with log := s.log ++ [e] }

/-- `setTimeout(callback, ms)`. -/
def Session.setTimeout {G : Type} (s : Session G) (callback : TimerCallback) (ms : Nat) :
    Session G :=
  { s with timers := s.timers ++ [callback], log := s.log ++ [.setTimeout callback ms] }

/-! ## The key exchange of a session (`completeKeyExchange`) -/

/-- The platform steps that `completeKeyExchange` awaits, each of which can
reject: `crypto.subtle.importKey` of a raw P-256 point, `deriveBits` for ECDH,
the HKDF of `deriveKeyFromSharedSecret`, the SHA-256 digest of `hashBuffer`
and the fetch of the phrase wordlist in `hashToWords`. -/
structure ExchangeSteps (G : Type) where
  importKey : List Nat → Except JSError G
  deriveBits : Nat → G → Except JSError (List Nat)
  hkdf : List Nat → Except JSError (List Nat)
  digest : List Nat → Except JSError (List Nat)
  effWordlist : Except JSError (List JSString)

/-- `importPublicKey(hexString)`. -/
def importPublicKey {G : Type} (steps : ExchangeSteps G) (hexString : JSString) :
    Except JSError G :=
  match hexToBytes hexString with
  | .error e => .error e
  | .ok bytes => steps.importKey bytes

/-- `completeKeyExchange(dhKeyPair, mainPublicKeyHex)`: the session afterwards
and whether it returned or threw.  `encryptionKey` is assigned as soon as the
key is derived, before the fingerprint is computed; the `catch` block logs the
error and throws it again. -/
def completeKeyExchange {G : Type} (steps : ExchangeSteps G) (s : Session G)
    (dhKeyPair : KeyPair G) (mainPublicKeyHex : JSString) : Session G × Except JSError Unit :=
  let s0 := s.emit (.keyExchange mainPublicKeyHex)
  match importPublicKey steps mainPublicKeyHex with
  | .error e => (s0.emit (.consoleError e), .error e)
  | .ok mainPublicKey =>
    match steps.deriveBits dhKeyPair.privateKey mainPublicKey with
    | .error e => (s0.emit (.consoleError e), .error e)
    | .ok sharedSecret =>
      match steps.hkdf sharedSecret with
      | .error e => (s0.emit (.consoleError e), .error e)
      | .ok key =>
        let s1 := { s0 with encryptionKey := some key }
        match steps.digest sharedSecret with
        | .error e => (s1.emit (.consoleError e), .error e)
        | .ok hash =>
          match steps.effWordlist with
          | .error e => (s1.emit (.consoleError e), .error e)
          | .ok wordlist =>
            (s1.emit (.fingerprint (hashToWords wordlist (arrayToHex hash))), .ok ())

/-- A key that a successful import, ECDH and HKDF produce. -/
def DerivedKey {G : Type} (steps : ExchangeSteps G) (key : List Nat) : Prop :=
  ∃ privateKey hex mainPublicKey sharedSecret,
    importPublicKey steps hex = .ok mainPublicKey ∧
    steps.deriveBits privateKey mainPublicKey = .ok sharedSecret ∧
    steps.hkdf sharedSecret = .ok key

/-! ## Connecting (`connectToMain`, `waitForMainPublicKey`, `setupWebSocket`) -/

/-- The error of the timeout of a wait. -/
def timeoutError : JSError := .error "Timeout waiting for main public key".toList

/-- The error thrown when no key is there after the exchange. -/
def keyExchangeFailedError : JSError :=
  .error "Key exchange failed - encryption key not established".toList

/-- The `catch` block of `connectToMain`: `showError`, then `console.error`. -/
def failConnect {G : Type} (s : Session G) (e : JSError) : Session G :=
  (s.emit (.showErrorOf "Connection failed: ".toList e)).emit (.consoleError e)

/-- The end of `connectToMain`, after the wait or the key exchange: the check
of `encryptionKey`, then `connectedMain = true`. -/
def finishConnect {G : Type} (s : Session G) : Session G :=
  match s.encryptionKey with
  | none => failConnect s keyExchangeFailedError
  | some _ => { s with connectedMain := true }

/-- The `resolve` of the promise of wait `w`: a promise that is settled stays
as it is; else `connectToMain`, which awaits it, goes on. -/
def resolveWait {G : Type} (s : Session G) (w : Nat) : Session G :=
  match s.waits[w]? with
  | some .pending => finishConnect { s with waits := s.waits.set w .resolved }
  | _ => s

/-- The `reject` of the promise of wait `w`: a promise that is settled stays
as it is; else the `catch` block of `connectToMain` runs. -/
def rejectWait {G : Type} (s : Session G) (w : Nat) (e : JSError) : Session G :=
  match s.waits[w]? with
  | some .pending => failConnect { s with waits := s.waits.set w (.rejected e) } e
  | _ => s

/-- `waitForMainPublicKey(code, dhKeyPair)` up to the promise it returns: the
pending key pair and the resolver are stored, the WebSocket is set up or the
subscription is sent, and the timeout of 60 seconds is set. -/
def waitForMainPublicKey {G : Type} (s : Session G) (dhKeyPair : KeyPair G) : Session G :=
  let s1 : Session G :=
    { s with
      dhKeyPairPending := some dhKeyPair
      mainKeyResolver := some s.waits.length
      waits := s.waits ++ [.pending] }
  let s2 := if s.wsOpen then s1.emit (.subscribe s.connectionCode) else s1.emit .setupWebSocket
  s2.setTimeout (.waitTimeout s.waits.length) 60000

/-- The callback of the timeout of wait `w`, when its timer fires. -/
def timeoutCallback {G : Type} (s : Session G) (w : Nat) : Session G :=
  let s1 : Session G := { s with timers := s.timers.erase (.waitTimeout w) }
  match s1.mainKeyResolver with
  | some _ => rejectWait { s1 with mainKeyResolver := none, dhKeyPairPending := none } w timeoutError
  | none => s1

/-- The response of the retrieval endpoint: the fetch or the parsing threw,
status 429, or the `messages` of the data (`none` when there are none). -/
inductive RetrieveResponse where
  | failed (e : JSError)
  | rateLimited
  | data (messages : Option (List ReceivedMessage))

/-- `fetchAndDisplayReceivedMessages()`. -/
def fetchAndDisplayReceivedMessages {G : Type} (response : RetrieveResponse) (s : Session G) :
    Session G :=
  if s.encryptionKey.isNone || !truthy s.connectionCode then s
  else
    let s1 := s.emit (.retrieve s.connectionCode)
    match response with
    | .failed e => s1.emit (.consoleError e)
    | .rateLimited => s1.emit .showRateLimitError
    | .data none => s1
    | .data (some messages) =>
      let r := dedupStep s1.displayedReceivedMessageIds messages
      let s2 : Session G := { s1 with displayedReceivedMessageIds := r.1 }
      if r.2.length > 0 then s2.emit (.display r.2) else s2

/-- The data of a WebSocket message. -/
structure WsMessage where
  type : JSString
  initiatorPublicKey : Option JSString
  deriving DecidableEq, Repr

/-- The branch of `ws.onmessage` for a key of the main: with a pending key
pair and a resolver, the key exchange, then the resolver is called and both
are cleared; an exception of the exchange goes to the `catch` block of the
handler, which logs it.  The handler is run to its end as one step: another
event comes before or after it, not between its awaits. -/
def onPeerKey {G : Type} (steps : ExchangeSteps G) (s : Session G) (hex : JSString) :
    Session G :=
  match s.dhKeyPairPending, s.mainKeyResolver with
  | some dhKeyPair, some w =>
    match completeKeyExchange steps s dhKeyPair hex with
    | (s1, .error e) => s1.emit (.consoleError e)
    | (s1, .ok _) => resolveWait { s1 with mainKeyResolver := none, dhKeyPairPending := none } w
  | _, _ => s

/-- `ws.onmessage`, a handler run to its end; `response` is what the retrieval
endpoint answers if it is asked. -/
def onMessage {G : Type} (steps : ExchangeSteps G) (response : RetrieveResponse)
    (s : Session G) (data : WsMessage) : Session G :=
  if data.type = "receiver-key-available".toList && truthy data.initiatorPublicKey then
    onPeerKey steps s (data.initiatorPublicKey.getD [])
  else if data.type = "keys-available".toList && truthy data.initiatorPublicKey then
    onPeerKey steps s (data.initiatorPublicKey.getD [])
  else if data.type = "message-available".toList then
    if s.encryptionKey.isSome then fetchAndDisplayReceivedMessages response s else s
  else s

/-- `ws.onclose`: the reconnection after 2 seconds, only with a connection
code and `connectedMain`. -/
def onClose {G : Type} (s : Session G) : Session G :=
  let s1 : Session G := { s with wsOpen := false }
  if truthy s.connectionCode && s.connectedMain then s1.setTimeout .setupWebSocket 2000 else s1

/-- The response of the join endpoint: the fetch threw, status 429, another
status that is not ok (with the `error` of its body), or the data of a
successful join. -/
inductive JoinResponse where
  | failed (e : JSError)
  | rateLimited
  | notOk (status : Nat) (error : Option JSString)
  | ok (code : Option JSString) (wsToken : Option JSString) (initiatorPublicKey : Option JSString)

/-- What one call of `connectToMain` meets: the value of the code field, the
wordlist, the key pair generated (or the exception of its generation or
export) and the response of the join endpoint. -/
structure ConnectInput (G : Type) where
  codeInput : JSString
  wordlist : Option Wordlist
  dhKeyPair : Except JSError (KeyPair G)
  response : JoinResponse

/-- `connectToMain()`, up to its end or to the wait it awaits. -/
def connectToMain {G : Type} (steps : ExchangeSteps G) (input : ConnectInput G)
    (s : Session G) : Session G :=
  let s0 := s.emit (.showError [])
  if trim input.codeInput = [] then s0.emit (.showError "Please enter a connection code".toList)
  else
    match decodePgpIfNeeded input.wordlist (trim input.codeInput) with
    | .error e => s0.emit (.showErrorOf [] e)
    | .ok _ =>
      match input.dhKeyPair with
      | .error e => failConnect s0 e
      | .ok dhKeyPair =>
        match input.response with
        | .failed e => failConnect s0 e
        | .rateLimited => s0.emit .showRateLimitError
        | .notOk status error =>
          if status = 409 then
            failConnect s0 (.error
              "Another connector is already connected. Please ask the main to send a new code.".toList)
          else if truthy error then failConnect s0 (.error (error.getD []))
          else failConnect s0 (.error "Connection failed".toList)
        | .ok code wsToken initiatorPublicKey =>
          let s1 : Session G := { s0 with connectionCode := code, wsToken := wsToken }
          if truthy initiatorPublicKey then
            match completeKeyExchange steps s1 dhKeyPair (initiatorPublicKey.getD []) with
            | (s2, .error e) => failConnect s2 e
            | (s2, .ok _) => finishConnect s2
          else waitForMainPublicKey s1 dhKeyPair

/-- An event of the session: a call of `connectToMain`, a WebSocket message
with the response of the retrieval endpoint, the timer of a wait that fires,
or the WebSocket that closes. -/
inductive SessionEvent (G : Type) where
  | connect (input : ConnectInput G)
  | message (data : WsMessage) (response : RetrieveResponse)
  | timeout (w : Nat)
  | close

/-- One step of the session.  A timer fires only if it is set. -/
def sessionStep {G : Type} (steps : ExchangeSteps G) (s : Session G) :
    SessionEvent G → Session G
  | .connect input => connectToMain steps input s
  | .message data response => onMessage steps response s data
  | .timeout w => if TimerCallback.waitTimeout w ∈ s.timers then timeoutCallback s w else s
  | .close => onClose s

/-- The session after a sequence of events. -/
def sessionRun {G : Type} (steps : ExchangeSteps G) (s : Session G)
    (events : List (SessionEvent G)) : Session G :=
  events.foldl (sessionStep steps) s

/-- An event of the waiter state machine: a wait is started by
`waitForMainPublicKey`, a key of the main is notified, or the timer of a wait
fires. -/
inductive WaiterEvent (G : Type) where
  | start (dhKeyPair : KeyPair G)
  | peerKey (hex : JSString)
  | timeout (w : Nat)

/-- One step of the waiter state machine.  A timer fires only if it is set. -/
def waiterStep {G : Type} (steps : ExchangeSteps G) (s : Session G) :
    WaiterEvent G → Session G
  | .start dhKeyPair => waitForMainPublicKey s dhKeyPair
  | .peerKey hex => onPeerKey steps s hex
  | .timeout w => if TimerCallback.waitTimeout w ∈ s.timers then timeoutCallback s w else s

/-- The waiter state machine after a sequence of events. -/
def waiterRun {G : Type} (steps : ExchangeSteps G) (s : Session G)
    (events : List (WaiterEvent G)) : Session G :=
  events.foldl (waiterStep steps) s

/-- The number of waits that are not settled. -/
def unsettled {G : Type} (s : Session G) : Nat :=
  s.waits.count .pending

/-! ## Sending (`sendMessage`) -/

/-- The response of the send endpoint: the fetch threw, status 429, another
status that is not ok (with its status text, whether its content type is JSON,
and the `error` of its body or the exception of parsing it), or ok. -/
inductive SendResponse where
  | failed (e : JSError)
  | rateLimited
  | notOk (status : Nat) (statusText : JSString) (json : Bool)
      (body : Except JSError (Option JSString))
  | ok

/-- What one call of `sendMessage` meets: the value of the text field, the
nonces of `crypto.getRandomValues` (for the text, and for the body and the
name of the file with a given index), the responses of the send endpoint and
the clock. -/
structure SendInput where
  text : JSString
  textIv : List Nat
  textResponse : SendResponse
  fileIv : Nat → List Nat
  fileNameIv : Nat → List Nat
  filesResponse : SendResponse
  now : Int

/-- How a part of `sendMessage` ends: it goes on, it returns, or it throws. -/
inductive Flow where
  | goOn
  | returned
  | threw (e : JSError)

/-- The text part of `sendMessage`: the text is encrypted and posted. -/
def sendTextPart {G K : Type} (p : Platform K) (key : List Nat) (input : SendInput)
    (s : Session G) : Session G × Flow :=
  if input.text = [] then (s, .goOn)
  else
    let s1 := (s.emit (.encrypt (p.encodeText input.text))).emit
      (.post (.text (sendTextEnvelope p key input.textIv input.text)))
    match input.textResponse with
    | .failed e => (s1, .threw e)
    | .rateLimited => (s1.emit .showRateLimitError, .returned)
    | .notOk _ _ _ (.error e) => (s1, .threw e)
    | .notOk _ _ _ (.ok error) =>
      (s1, .threw (.error (if truthy error then error.getD [] else "Send text failed".toList)))
    | .ok => (s1, .goOn)

/-- The loop over the selected files, from index `i` on: the name and the
bytes of each file are encrypted; the parts for the form and the effects. -/
def encryptFiles {K : Type} (p : Platform K) (key : List Nat) (input : SendInput) :
    Nat → List SelectedFile → List FilePart × List Effect
  | _, [] => ([], [])
  | i, f :: rest =>
    let name := p.encrypt (p.importKey key) (input.fileNameIv i) (p.encodeText f.name)
    let r := encryptFiles p key input (i + 1) rest
    ({ ivHex := arrayToHex (input.fileIv i)
       encryptedNameHex := arrayToHex name
       nameIvHex := arrayToHex (input.fileNameIv i) } :: r.1,
     .encrypt (p.encodeText f.name) :: .encrypt f.file :: r.2)

/-- The message of the error thrown for a files response that is not ok. -/
def sendFilesFailedMessage (status : Nat) (statusText : JSString) (json : Bool)
    (body : Except JSError (Option JSString)) : JSString :=
  if json then
    match body with
    | .ok error => if truthy error then error.getD [] else "Send files failed".toList
    | .error _ => "Server error: ".toList ++ decimal status ++ [' '] ++ statusText
  else "Server error: ".toList ++ decimal status ++ [' '] ++ statusText

/-- The files part of `sendMessage`: the files are encrypted and posted. -/
def sendFilesPart {G K : Type} (p : Platform K) (key : List Nat) (input : SendInput)
    (s : Session G) : Session G × Flow :=
  if s.selectedFiles.length > 0 then
    let r := encryptFiles p key input 0 s.selectedFiles
    let s1 : Session G := { s with log := s.log ++ r.2 ++ [.post (.files r.1)] }
    match input.filesResponse with
    | .failed e => (s1, .threw e)
    | .rateLimited => (s1.emit .showRateLimitError, .returned)
    | .notOk status statusText json body =>
      (s1, .threw (.error (sendFilesFailedMessage status statusText json body)))
    | .ok => (s1, .goOn)
  else (s, .goOn)

/-- The end of `sendMessage` after the posts: the success is shown, the
history gets the text and the files, and the selection is emptied. -/
def sendDone {G : Type} (input : SendInput) (s : Session G) : Session G :=
  let s1 := s.emit (.showSuccess "Message sent securely!".toList)
  let withText :=
    if input.text = [] then s1.sentMessages
    else s1.sentMessages ++
      [{ type := "text".toList, text := input.text, files := [], timestamp := input.now }]
  let withFiles :=
    if s1.selectedFiles.length > 0 then
      withText ++ [{ type := "files".toList, text := [],
                     files := s1.selectedFiles.map (fun f => (f.name, f.size)),
                     timestamp := input.now }]
    else withText
  { s1 with sentMessages := withFiles, selectedFiles := [] }

/-- `sendMessage()`. -/
def sendMessage {G K : Type} (p : Platform K) (input : SendInput) (s : Session G) : Session G :=
  if !s.connectedMain then s.emit (.showError "Not connected to main".toList)
  else
    match s.encryptionKey with
    | none =>
      s.emit (.showError
        "Secure connection not established. Key exchange may have failed. Please reconnect.".toList)
    | some key =>
      if trim input.text = [] && s.selectedFiles.length = 0 then
        s.emit (.showError "Please enter a message or select files".toList)
      else
        match sendTextPart p key input s with
        | (s1, .returned) => s1
        | (s1, .threw e) =>
          (s1.emit (.showErrorOf "Send failed: ".toList e)).emit (.consoleError e)
        | (s1, .goOn) =>
          match sendFilesPart p key input s1 with
          | (s2, .returned) => s2
          | (s2, .threw e) =>
            (s2.emit (.showErrorOf "Send failed: ".toList e)).emit (.consoleError e)
          | (s2, .goOn) => sendDone input s2

/-- An effect that encrypts, decrypts, submits or fetches a payload. -/
def Effect.isPayload : Effect → Bool
  | .encrypt _ => true
  | .post _ => true
  | .retrieve _ => true
  | .display _ => true
  | _ => false

/-- Steps for examples on the sample curve: a public key is the number its
hex text denotes, the key is the shared secret, the digest is the identity. -/
def sampleSteps : ExchangeSteps Int :=
  { importKey := fun bytes =>
      match bytes with
      | [b] => if b = 0 then .error .operationError else .ok (b : Int)
      | _ => .error .operationError
    deriveBits := fun privateKey mainPublicKey =>
      .ok (computeSharedSecret sampleCurve privateKey mainPublicKey)
    hkdf := fun sharedSecret => .ok (deriveKeyFromSharedSecret (fun _ _ ikm => ikm) sharedSecret)
    digest := fun data => .ok data
    effWordlist := .ok ["alpha".toList, "beta".toList] }

/-- Steps for examples that differ from `sampleSteps` in the fetch of the
phrase wordlist, which fails. -/
def noWordlistSteps : ExchangeSteps Int :=
  { sampleSteps with effWordlist := .error (.error "Failed to fetch".toList) }

/-- A call of `connectToMain` for examples: the code `AB12CD34`, the key pair
`(2, 2)` of the sample curve, and a join without the key of the main. -/
def joinWithoutKey : ConnectInput Int :=
  { codeInput := "AB12CD34".toList
    wordlist := none
    dhKeyPair := .ok { privateKey := 2, publicKey := 2 }
    response := .ok (some "AB12CD34".toList) (some "token".toList) none }

/-- A call of `connectToMain` for examples whose join has the key `03` of the
main. -/
def joinWithKey : ConnectInput Int :=
  { joinWithoutKey with
    response := .ok (some "AB12CD34".toList) (some "token".toList) (some "03".toList) }

/-- A notification of the key `hex` of the main. -/
def receiverKeyAvailable (hex : JSString) : WsMessage :=
  { type := "receiver-key-available".toList, initiatorPublicKey := some hex }

/-- The other notification of the key `hex` of the main. -/
def keysAvailable (hex : JSString) : WsMessage :=
  { type := "keys-available".toList, initiatorPublicKey := some hex }

/-- The notification of a message of the main. -/
def messageAvailable : WsMessage :=
  { type := "message-available".toList, initiatorPublicKey := none }

/-- A call of `sendMessage` for examples: the text `hi`, answered with ok. -/
def sampleSend : SendInput :=
  { text := "hi".toList
    textIv := sampleNonce
    textResponse := .ok
    fileIv := fun _ => sampleNonce
    fileNameIv := fun _ => sampleNonce
    filesResponse := .ok
    now := 1700000000000 }

/-- An event that starts a wait. -/
def WaiterEvent.isStart {G : Type} : WaiterEvent G → Bool
  | .start _ => true
  | _ => false

/-- An event that is a call of `connectToMain`. -/
def SessionEvent.isConnect {G : Type} : SessionEvent G → Bool
  | .connect _ => true
  | _ => false

/-- A session without a wait that is not settled and without the timer of a
wait. -/
def Quiet {G : Type} (s : Session G) : Prop :=
  (∀ st ∈ s.waits, st ≠ .pending) ∧ ∀ w, TimerCallback.waitTimeout w ∉ s.timers

/-- A key pair for examples on the sample curve. -/
def sampleKeyPair : KeyPair Int := { privateKey := 2, publicKey := 2 }

/-- The waiter state machine after a wait is started in `s` and the events
that follow. -/
def afterStart {G : Type} (steps : ExchangeSteps G) (s : Session G) (dhKeyPair : KeyPair G)
    (events : List (WaiterEvent G)) : Session G :=
  waiterRun steps (waitForMainPublicKey s dhKeyPair) events

/-- The states of a session in which one wait was started after the waits
`earlier`, all settled: the wait is pending, with its resolver stored and its
timer set, or it is resolved or rejected by its timeout and nothing is
stored; no other timer of a wait is set. -/
def SingleWait {G : Type} (earlier : List PromiseState) (s : Session G) : Prop :=
  (∀ i, TimerCallback.waitTimeout i ∈ s.timers → i = earlier.length) ∧
  ((s.waits = earlier ++ [.pending] ∧ s.mainKeyResolver = some earlier.length ∧
      s.dhKeyPairPending.isSome = true ∧ TimerCallback.waitTimeout earlier.length ∈ s.timers) ∨
    ((s.waits = earlier ++ [.resolved] ∨ s.waits = earlier ++ [.rejected timeoutError]) ∧
      s.mainKeyResolver = none ∧ s.dhKeyPairPending = none))

/-- The import, ECDH and HKDF of a key exchange do not all succeed. -/
def CryptoFails {G : Type} (steps : ExchangeSteps G) (privateKey : Nat) (hex : JSString) : Prop :=
  ∀ mainPublicKey sharedSecret key, importPublicKey steps hex = .ok mainPublicKey →
    steps.deriveBits privateKey mainPublicKey = .ok sharedSecret →
    steps.hkdf sharedSecret ≠ .ok key

/-- The invariant of the session key: `encryptionKey` holds nothing or a key
that a successful import, ECDH and HKDF produced, and `connectedMain` is set
only with a key. -/
def KeyInvariant {G : Type} (steps : ExchangeSteps G) (s : Session G) : Prop :=
  (∀ key, s.encryptionKey = some key → DerivedKey steps key) ∧
  (s.connectedMain = true → s.encryptionKey.isSome = true)

/-- A call of `connectToMain` for examples that is answered with status 409. -/
def joinConflict : ConnectInput Int :=
  { joinWithoutKey with response := .notOk 409 none }

/-- A call of `connectToMain` for examples whose join has the key `00` of the
main, which cannot be imported. -/
def joinWithBadKey : ConnectInput Int :=
  { joinWithoutKey with
    response := .ok (some "AB12CD34".toList) (some "token".toList) (some "00".toList) }

/-! # Lemmas -/

theorem char_eq_of_toNat {c d : Char} (h : c.toNat = d.toNat) : c = d := by
  rw [← Char.ofNat_toNat c, ← Char.ofNat_toNat d, h]

theorem toLower_toNat (c : Char) :
    (c.toLower = c ∧ ¬ (65 ≤ c.toNat ∧ c.toNat ≤ 90)) ∨
    (65 ≤ c.toNat ∧ c.toNat ≤ 90 ∧ c.toLower.toNat = c.toNat + 32) := by
  by_cases h : c.toNat ≥ 65 ∧ c.toNat ≤ 90
  · right
    obtain ⟨h1, h2⟩ := h
    refine ⟨h1, h2, ?_⟩
    have e : c.toLower = Char.ofNat (c.toNat + 32) := by
      unfold Char.toLower; simp [h1, h2]
    rw [e]
    generalize c.toNat = n at *
    interval_cases n <;> rfl
  · left
    refine ⟨?_, h⟩
    unfold Char.toLower; simp only [h, if_false]

theorem toUpper_toNat (c : Char) :
    (c.toUpper = c ∧ ¬ (97 ≤ c.toNat ∧ c.toNat ≤ 122)) ∨
    (97 ≤ c.toNat ∧ c.toNat ≤ 122 ∧ c.toUpper.toNat = c.toNat - 32) := by
  by_cases h : c.toNat ≥ 97 ∧ c.toNat ≤ 122
  · right
    obtain ⟨h1, h2⟩ := h
    refine ⟨h1, h2, ?_⟩
    have e : c.toUpper = Char.ofNat (c.toNat - 32) := by
      unfold Char.toUpper; simp [h1, h2]
    rw [e]
    generalize c.toNat = n at *
    interval_cases n <;> rfl
  · left
    refine ⟨?_, h⟩
    unfold Char.toUpper; simp only [h, if_false]

theorem isWhiteSpace_eq_false_of_ascii {c : Char} (h1 : 33 ≤ c.toNat) (h2 : c.toNat ≤ 126) :
    isWhiteSpace c = false := by
  simp only [isWhiteSpace]
  simp only [Bool.or_eq_false_iff, Bool.and_eq_false_iff, beq_eq_false_iff_ne,
    decide_eq_false_iff_not]
  omega

theorem isWhiteSpace_toLower (c : Char) : isWhiteSpace c.toLower = isWhiteSpace c := by
  rcases toLower_toNat c with ⟨h, _⟩ | ⟨h1, h2, h3⟩
  · rw [h]
  · rw [isWhiteSpace_eq_false_of_ascii (c := c.toLower) (by omega) (by omega),
      isWhiteSpace_eq_false_of_ascii (c := c) (by omega) (by omega)]

theorem isWhiteSpace_toUpper (c : Char) : isWhiteSpace c.toUpper = isWhiteSpace c := by
  rcases toUpper_toNat c with ⟨h, _⟩ | ⟨h1, h2, h3⟩
  · rw [h]
  · rw [isWhiteSpace_eq_false_of_ascii (c := c.toUpper) (by omega) (by omega),
      isWhiteSpace_eq_false_of_ascii (c := c) (by omega) (by omega)]

theorem isSeparator_toLower (c : Char) : isSeparator c.toLower = isSeparator c := by
  unfold isSeparator
  rw [isWhiteSpace_toLower]
  rcases toLower_toNat c with ⟨h, _⟩ | ⟨h1, h2, h3⟩
  · rw [h]
  · have e1 : (c.toLower.toNat == 0x2D) = false := by simp; omega
    have e2 : (c.toNat == 0x2D) = false := by simp; omega
    rw [e1, e2]

theorem toUpper_toLower (c : Char) : c.toLower.toUpper = c.toUpper := by
  rcases toLower_toNat c with ⟨h, _⟩ | ⟨h1, h2, h3⟩
  · rw [h]
  · apply char_eq_of_toNat
    rcases toUpper_toNat c.toLower with ⟨_, h'⟩ | ⟨_, _, h4⟩
    · omega
    · rcases toUpper_toNat c with ⟨h5, _⟩ | ⟨_, _, _⟩
      · rw [h5, h4]; omega
      · omega

theorem splitGo_ne_nil (s : JSString) (b : Bool) : splitGo s b ≠ [] := by
  induction s generalizing b with
  | nil => simp [splitGo]
  | cons c cs ih =>
    unfold splitGo
    split
    · split
      · exact ih true
      · simp
    · split <;> simp

theorem splitGo_sepFree_append (w rest : JSString) (b : Bool) (hw : SepFree w) (hne : w ≠ []) :
    splitGo (w ++ rest) b =
      (w ++ (splitGo rest false).headD []) :: (splitGo rest false).tail := by
  induction w generalizing b with
  | nil => exact absurd rfl hne
  | cons c cs ih =>
    have hc : isSeparator c = false := hw c (List.mem_cons_self _ _)
    have hcs : SepFree cs := fun d hd => hw d (List.mem_cons_of_mem _ hd)
    by_cases hnil : cs = []
    · subst hnil
      simp only [List.cons_append, List.nil_append]
      rw [splitGo]
      simp only [hc, Bool.false_eq_true, if_false]
      cases h : splitGo rest false with
      | nil => exact absurd h (splitGo_ne_nil _ _)
      | cons p ps => simp
    · simp only [List.cons_append]
      rw [splitGo]
      simp only [hc, Bool.false_eq_true, if_false]
      rw [ih false hcs hnil]

theorem splitWords_join (ws : List JSString) (hs : ∀ w ∈ ws, SepFree w) (hn : ∀ w ∈ ws, w ≠ []) :
    (ws = [] ∨ (splitGo (join [' '] ws) true).filter (fun w => !w.isEmpty) = ws) ∧
    (splitGo (join [' '] ws) false).filter (fun w => !w.isEmpty) = ws := by
  induction ws with
  | nil => simp [join, splitGo]
  | cons w rest ih =>
    have hw : SepFree w := hs w (List.mem_cons_self _ _)
    have hwn : w ≠ [] := hn w (List.mem_cons_self _ _)
    have hwe : w.isEmpty = false := by cases w <;> simp_all
    cases rest with
    | nil =>
      have e : ∀ b, splitGo w b = [w] := by
        intro b
        have := splitGo_sepFree_append w [] b hw hwn
        simpa [splitGo] using this
      simp [join, e, hwe]
    | cons w2 rest2 =>
      have ih' := ih (fun x hx => hs x (List.mem_cons_of_mem _ hx))
        (fun x hx => hn x (List.mem_cons_of_mem _ hx))
      have ih1 : (splitGo (join [' '] (w2 :: rest2)) true).filter (fun w => !w.isEmpty)
          = w2 :: rest2 := by
        rcases ih'.1 with h | h
        · exact absurd h (by simp)
        · exact h
      have hsp : isSeparator ' ' = true := by decide
      have e : ∀ b, splitGo (join [' '] (w :: w2 :: rest2)) b
          = w :: splitGo (join [' '] (w2 :: rest2)) true := by
        intro b
        have : join [' '] (w :: w2 :: rest2) = w ++ (' ' :: join [' '] (w2 :: rest2)) := by
          simp [join]
        rw [this, splitGo_sepFree_append w _ b hw hwn]
        rw [splitGo]
        simp [hsp]
      simp only [e, List.filter_cons, hwe, Bool.not_false, if_true, ih1]
      simp

theorem splitWords_join_eq (ws : List JSString) (hs : ∀ w ∈ ws, SepFree w)
    (hn : ∀ w ∈ ws, w ≠ []) : splitWords (join [' '] ws) = ws :=
  (splitWords_join ws hs hn).2

theorem mem_wordsOf_of_mem {wl : Wordlist} {k o e : JSString}
    (h : (k, WordlistEntry.pair (.str o) (.str e)) ∈ wl) : o ∈ wordsOf wl ∧ e ∈ wordsOf wl := by
  induction wl with
  | nil => cases h
  | cons x rest ih =>
    rcases List.mem_cons.mp h with h1 | h1
    · subst h1
      simp [wordsOf]
    · have := ih h1
      obtain ⟨k', ent⟩ := x
      cases ent with
      | invalid => simpa [wordsOf] using this
      | pair a b =>
        cases a <;> cases b <;> simp [wordsOf, this]

theorem searchWordlist_of_mem (wl : Wordlist) (hp : ∀ x ∈ wl, isWordPair x.2 = true)
    (hd : ((wordsOf wl).map toLowerCase).Nodup) {k o e : JSString}
    (h : (k, WordlistEntry.pair (.str o) (.str e)) ∈ wl) :
    searchWordlist (toLowerCase o) wl = .ok (some (parseInt16 k, 1)) ∧
    searchWordlist (toLowerCase e) wl = .ok (some (parseInt16 k, 0)) := by
  induction wl with
  | nil => cases h
  | cons x rest ih =>
    obtain ⟨k', ent⟩ := x
    have hx := hp (k', ent) (List.mem_cons_self _ _)
    cases ent with
    | invalid => simp [isWordPair] at hx
    | pair a b =>
      cases a with
      | other => simp [isWordPair] at hx
      | str o' =>
        cases b with
        | other => simp [isWordPair] at hx
        | str e' =>
          simp only [wordsOf, List.map_cons, List.nodup_cons, List.mem_cons, not_or] at hd
          obtain ⟨⟨hoe, ho⟩, he, hrest⟩ := hd
          rcases List.mem_cons.mp h with h1 | h1
          · injection h1 with hk hent
            injection hent with ha hb
            injection ha with ha
            injection hb with hb
            subst hk ha hb
            simp [searchWordlist, Ne.symm hoe]
          · have hm := mem_wordsOf_of_mem h1
            have h2 := ih (fun y hy => hp y (List.mem_cons_of_mem _ hy)) hrest h1
            have n1 : toLowerCase o ≠ toLowerCase o' := fun hc =>
              ho (hc ▸ List.mem_map_of_mem _ hm.1)
            have n2 : toLowerCase o ≠ toLowerCase e' := fun hc =>
              he (hc ▸ List.mem_map_of_mem _ hm.1)
            have n3 : toLowerCase e ≠ toLowerCase o' := fun hc =>
              ho (hc ▸ List.mem_map_of_mem _ hm.2)
            have n4 : toLowerCase e ≠ toLowerCase e' := fun hc =>
              he (hc ▸ List.mem_map_of_mem _ hm.2)
            simp [searchWordlist, n1, n2, n3, n4, h2]

theorem searchWordlist_none (wl : Wordlist) (hp : ∀ x ∈ wl, isWordPair x.2 = true)
    (word : JSString) (hw : word ∉ (wordsOf wl).map toLowerCase) :
    searchWordlist word wl = .ok none := by
  induction wl with
  | nil => rfl
  | cons x rest ih =>
    obtain ⟨k', ent⟩ := x
    have hx := hp (k', ent) (List.mem_cons_self _ _)
    cases ent with
    | invalid => simp [isWordPair] at hx
    | pair a b =>
      cases a with
      | other => simp [isWordPair] at hx
      | str o' =>
        cases b with
        | other => simp [isWordPair] at hx
        | str e' =>
          simp only [wordsOf, List.map_cons, List.mem_cons, not_or] at hw
          obtain ⟨h1, h2, h3⟩ := hw
          simp [searchWordlist, h1, h2, ih (fun y hy => hp y (List.mem_cons_of_mem _ hy)) h3]

theorem wordOfByte_spec (wl : Wordlist) (hwf : WellFormedAsStated wl) (b : Nat) (hb : b < 256) :
    ∃ k o e, (k, WordlistEntry.pair (.str o) (.str e)) ∈ wl ∧ parseInt16 k = some (b : Int) ∧
      wordOfByte wl (some (b : Int)) = if parityMismatch (some (b : Int)) 0 then o else e := by
  have hmem : some (b : Int) ∈ wl.map (fun e => parseInt16 e.1) := by
    rw [hwf.onePerByte.mem_iff]
    rw [List.mem_map]
    exact ⟨b, List.mem_range.mpr hb, rfl⟩
  obtain ⟨x, hx, hxb⟩ := List.mem_map.mp hmem
  unfold wordOfByte
  cases hf : wl.find? (fun e => parseInt16 e.1 == some (b : Int)) with
  | none =>
    rw [List.find?_eq_none] at hf
    exact absurd (by simpa using hxb) (hf x hx)
  | some y =>
    obtain ⟨k, ent⟩ := y
    have hy : (k, ent) ∈ wl := List.mem_of_find?_eq_some hf
    have hk := List.find?_some hf
    have hpair := hwf.wordPairs _ hy
    cases ent with
    | invalid => simp [isWordPair] at hpair
    | pair a c =>
      cases a with
      | other => simp [isWordPair] at hpair
      | str o =>
        cases c with
        | other => simp [isWordPair] at hpair
        | str e =>
          exact ⟨k, o, e, hy, by simpa using hk, rfl⟩

theorem mem_upperHexDigits {c : Char} (h : isUpperHexDigit c = true) : c ∈ upperHexDigits := by
  unfold isUpperHexDigit at h
  simp only [Bool.or_eq_true, Bool.and_eq_true, decide_eq_true_eq] at h
  rw [← Char.ofNat_toNat c]
  generalize c.toNat = n at h
  rcases h with ⟨h1, h2⟩ | ⟨h1, h2⟩ <;> interval_cases n <;> decide

theorem hexPair_check : ∀ c1 ∈ upperHexDigits, ∀ c2 ∈ upperHexDigits,
    byteToHex (parseInt16 [c1, c2]) = [c1, c2] ∧ isByte (parseInt16 [c1, c2]) = true := by
  decide

theorem join_nil_cons (a : JSString) (l : List JSString) : join [] (a :: l) = a ++ join [] l := by
  cases l <;> simp [join]

theorem codeBytes_valid : ∀ (code : JSString), code.all isUpperHexDigit = true →
    code.length % 2 = 0 →
    (∀ x ∈ codeBytes code, isByte x = true) ∧ join [] ((codeBytes code).map byteToHex) = code ∧
      2 * (codeBytes code).length = code.length
  | [], _, _ => by simp [codeBytes, join]
  | [c], _, h => by simp at h
  | c1 :: c2 :: rest, ha, hl => by
    simp only [List.all_cons, Bool.and_eq_true] at ha
    obtain ⟨h1, h2, h3⟩ := ha
    have hl' : rest.length % 2 = 0 := by simp only [List.length_cons] at hl; omega
    obtain ⟨i1, i2, i3⟩ := codeBytes_valid rest h3 hl'
    have hc := hexPair_check c1 (mem_upperHexDigits h1) c2 (mem_upperHexDigits h2)
    refine ⟨?_, ?_, ?_⟩
    · intro x hx
      simp only [codeBytes, List.mem_cons] at hx
      rcases hx with hx | hx
      · rw [hx]; exact hc.2
      · exact i1 x hx
    · simp only [codeBytes, List.map_cons, join_nil_cons, hc.1, i2]
      rfl
    · simp only [codeBytes, List.length_cons]
      omega

theorem isByte_iff {x : Option Int} (h : isByte x = true) : ∃ b : Nat, b < 256 ∧ x = some (b : Int) := by
  cases x with
  | none => simp [isByte] at h
  | some v =>
    simp only [isByte, Bool.and_eq_true, decide_eq_true_eq] at h
    exact ⟨v.toNat, by omega, by congr 1; omega⟩

theorem toLowerCase_join (ws : List JSString) :
    toLowerCase (join [' '] ws) = join [' '] (ws.map toLowerCase) := by
  induction ws with
  | nil => rfl
  | cons w rest ih =>
    cases rest with
    | nil => rfl
    | cons w2 rest2 =>
      have e1 : join [' '] (w :: w2 :: rest2) = w ++ [' '] ++ join [' '] (w2 :: rest2) := rfl
      have e2 : join [' '] ((w :: w2 :: rest2).map toLowerCase)
          = toLowerCase w ++ [' '] ++ join [' '] ((w2 :: rest2).map toLowerCase) := rfl
      rw [e1, e2, ← ih]
      simp [toLowerCase]

theorem sepFree_toLowerCase {w : JSString} (h : SepFree w) : SepFree (toLowerCase w) := by
  intro c hc
  obtain ⟨d, hd, rfl⟩ := List.mem_map.mp hc
  rw [isSeparator_toLower]
  exact h d hd

theorem not_isWhiteSpace_of_not_isSeparator {c : Char} (h : isSeparator c = false) :
    isWhiteSpace c = false := by
  unfold isSeparator at h
  simp only [Bool.or_eq_false_iff] at h
  exact h.1

theorem join_head (ws : List JSString) (hs : ∀ w ∈ ws, SepFree w) (hn : ∀ w ∈ ws, w ≠ [])
    (hne : ws ≠ []) : ∃ a rest, join [' '] ws = a :: rest ∧ isWhiteSpace a = false := by
  cases ws with
  | nil => exact absurd rfl hne
  | cons w rest =>
    have hw := hs w (List.mem_cons_self _ _)
    have hwn := hn w (List.mem_cons_self _ _)
    cases w with
    | nil => exact absurd rfl hwn
    | cons a t =>
      have ha := not_isWhiteSpace_of_not_isSeparator (hw a (List.mem_cons_self _ _))
      cases rest with
      | nil => exact ⟨a, t, rfl, ha⟩
      | cons w2 r2 => exact ⟨a, _, rfl, ha⟩

theorem join_last (ws : List JSString) (hs : ∀ w ∈ ws, SepFree w) (hn : ∀ w ∈ ws, w ≠ [])
    (hne : ws ≠ []) : ∃ init z, join [' '] ws = init ++ [z] ∧ isWhiteSpace z = false := by
  induction ws with
  | nil => exact absurd rfl hne
  | cons w rest ih =>
    cases rest with
    | nil =>
      have hw := hs w (List.mem_cons_self _ _)
      have hwn := hn w (List.mem_cons_self _ _)
      refine ⟨w.dropLast, w.getLast hwn, (List.dropLast_append_getLast hwn).symm, ?_⟩
      exact not_isWhiteSpace_of_not_isSeparator (hw _ (List.getLast_mem hwn))
    | cons w2 r2 =>
      obtain ⟨init, z, e, hz⟩ := ih (fun x hx => hs x (List.mem_cons_of_mem _ hx))
        (fun x hx => hn x (List.mem_cons_of_mem _ hx)) (by simp)
      refine ⟨w ++ [' '] ++ init, z, ?_, hz⟩
      have e1 : join [' '] (w :: w2 :: r2) = w ++ [' '] ++ join [' '] (w2 :: r2) := rfl
      rw [e1, e]
      simp

theorem trim_join (ws : List JSString) (hs : ∀ w ∈ ws, SepFree w) (hn : ∀ w ∈ ws, w ≠ []) :
    trim (join [' '] ws) = join [' '] ws := by
  by_cases hne : ws = []
  · subst hne; rfl
  · obtain ⟨a, rest, e, ha⟩ := join_head ws hs hn hne
    obtain ⟨init, z, e2, hz⟩ := join_last ws hs hn hne
    unfold trim
    have h1 : (join [' '] ws).dropWhile isWhiteSpace = join [' '] ws := by
      rw [e, List.dropWhile_cons_of_neg (by simp [ha])]
    rw [h1, e2, List.rdropWhile_concat_neg _ _ _ (by simp [hz])]

theorem parity_of_byte (b : Nat) :
    (parityMismatch (some (b : Int)) 0 = true → parityMismatch (some (b : Int)) 1 = false) ∧
    (parityMismatch (some (b : Int)) 0 = false → parityMismatch (some (b : Int)) 0 = false) := by
  refine ⟨?_, id⟩
  simp only [parityMismatch, bne_iff_ne, ne_eq, bne_eq_false_iff_eq]
  rw [Int.tmod_eq_emod (by omega) (by omega)]
  intro h
  push_cast at h ⊢
  omega

theorem wordOfByte_mem (wl : Wordlist) (hwf : WellFormedAsStated wl) (b : Nat) (hb : b < 256) :
    wordOfByte wl (some (b : Int)) ∈ wordsOf wl := by
  obtain ⟨k, o, e, hm, _, hw⟩ := wordOfByte_spec wl hwf b hb
  rw [hw]
  split
  · exact (mem_wordsOf_of_mem hm).1
  · exact (mem_wordsOf_of_mem hm).2

theorem decodeWords_encode (wl : Wordlist) (hwf : WellFormed wl) (bytes : List (Option Int))
    (hb : ∀ x ∈ bytes, isByte x = true) (i : Nat) :
    decodeWords wl i (bytes.map (fun x => toLowerCase (wordOfByte wl x))) = .ok bytes := by
  induction bytes generalizing i with
  | nil => rfl
  | cons x rest ih =>
    obtain ⟨b, hlt, rfl⟩ := isByte_iff (hb x (List.mem_cons_self _ _))
    obtain ⟨k, o, e, hm, hk, hw⟩ := wordOfByte_spec wl hwf.asStated b hlt
    have hs := searchWordlist_of_mem wl hwf.asStated.wordPairs hwf.distinctLower hm
    have ih' := ih (fun y hy => hb y (List.mem_cons_of_mem _ hy)) (i + 1)
    simp only [List.map_cons, decodeWords]
    rw [hw]
    by_cases hpar : parityMismatch (some (b : Int)) 0 = true
    · simp only [hpar, if_true, hs.1, hk, (parity_of_byte b).1 hpar, Bool.false_eq_true, if_false, ih']
    · simp only [hpar, if_false, hs.2, hk, Bool.false_eq_true, ih']


theorem chain_of_strictlyIncreasing : ∀ (l : List Nat), strictlyIncreasing l = true →
    List.Chain' (· < ·) l
  | [], _ => List.chain'_nil
  | [_], _ => List.chain'_singleton _
  | a :: b :: rest, h => by
    simp only [strictlyIncreasing, Bool.and_eq_true, decide_eq_true_eq] at h
    exact List.chain'_cons.mpr ⟨h.1, chain_of_strictlyIncreasing (b :: rest) h.2⟩

theorem nodup_of_rank (f : JSString → Nat) (l : List JSString)
    (h : strictlyIncreasing (l.map f) = true) : l.Nodup := by
  have hp : List.Pairwise (· < ·) (l.map f) :=
    List.chain'_iff_pairwise.mp (chain_of_strictlyIncreasing _ h)
  exact List.Nodup.of_map f (hp.imp (fun hlt => Nat.ne_of_lt hlt))

theorem wellFormedAsStated_of_check (evenTag : Char) (wl : Wordlist)
    (h : checkAsStated evenTag wl = true) : WellFormedAsStated wl := by
  simp only [checkAsStated, Bool.and_eq_true, List.all_eq_true, beq_iff_eq,
    Bool.not_eq_true'] at h
  obtain ⟨⟨⟨⟨h1, h2⟩, h3⟩, h4⟩, h5⟩ := h
  exact ⟨h1, h2 ▸ List.Perm.refl _, h3, nodup_of_rank _ _ h4, h5⟩

theorem wellFormed_of_check (evenTag : Char) (wl : Wordlist)
    (h : checkWellFormed evenTag wl = true) : WellFormed wl := by
  simp only [checkWellFormed, Bool.and_eq_true, List.all_eq_true, Bool.not_eq_true'] at h
  obtain ⟨⟨h1, h2⟩, h3⟩ := h
  refine ⟨wellFormedAsStated_of_check evenTag wl h1, ?_, nodup_of_rank _ _ h3⟩
  intro w hw hnil
  have := h2 w hw
  rw [hnil] at this
  simp at this

set_option maxRecDepth 100000 in
theorem sampleWordlist_wellFormed : WellFormed sampleWordlist :=
  wellFormed_of_check 'e' _ (by decide)

set_option maxRecDepth 100000 in
theorem caseWordlist_asStated : WellFormedAsStated caseWordlist :=
  wellFormedAsStated_of_check 'X' _ (by decide)

set_option maxRecDepth 100000 in
theorem emptyWordWordlist_asStated : WellFormedAsStated emptyWordWordlist :=
  wellFormedAsStated_of_check 'e' _ (by decide)

/-! # The connection-code codec -/

/-- C1 (amended): for every wordlist that is well-formed for the decoder
(one entry per byte keyed by its two-digit hex value, each a pair of words,
the words not empty, free of white space and hyphens, and distinct when letter
case is ignored) and whose words are made of ASCII characters, and for every
valid connection code, decoding the words of the code gives the code back. -/
theorem decode_encodeAsWords (wl : Wordlist) (code : JSString) (hwl : WellFormed wl)
    (_hascii : asciiWords wl = true) (hcode : ValidCode code) :
    decodePgpIfNeeded (some wl) (encodeAsWords wl code) = .ok code := by
  obtain ⟨hall, heven, hlen⟩ := hcode
  obtain ⟨hbytes, hjoin, hcount⟩ := codeBytes_valid code hall heven
  have hmem : ∀ w ∈ (codeBytes code).map (wordOfByte wl), w ∈ wordsOf wl := by
    intro w hw
    obtain ⟨x, hx, rfl⟩ := List.mem_map.mp hw
    obtain ⟨b, hlt, rfl⟩ := isByte_iff (hbytes x hx)
    exact wordOfByte_mem wl hwl.asStated b hlt
  have hs : ∀ w ∈ ((codeBytes code).map (wordOfByte wl)).map toLowerCase, SepFree w := by
    intro w hw
    obtain ⟨v, hv, rfl⟩ := List.mem_map.mp hw
    exact sepFree_toLowerCase (hwl.asStated.noSeparator v (hmem v hv))
  have hn : ∀ w ∈ ((codeBytes code).map (wordOfByte wl)).map toLowerCase, w ≠ [] := by
    intro w hw
    obtain ⟨v, hv, rfl⟩ := List.mem_map.mp hw
    have := hwl.nonEmpty v (hmem v hv)
    simpa [toLowerCase] using this
  have hwords : splitWords (trim (toLowerCase (encodeAsWords wl code)))
      = (codeBytes code).map (fun x => toLowerCase (wordOfByte wl x)) := by
    unfold encodeAsWords
    rw [toLowerCase_join, trim_join _ hs hn, splitWords_join_eq _ hs hn, List.map_map]
    rfl
  have hne : ((codeBytes code).map (fun x => toLowerCase (wordOfByte wl x))).length ≠ 1 := by
    rw [List.length_map]; omega
  unfold decodePgpIfNeeded
  simp only [hwords, hne, if_false, decodeWords_encode wl hwl _ hbytes 0, hjoin]

set_option maxRecDepth 100000 in
/-- C1, an instance: the sample wordlist is well-formed and its words are
ASCII, `AB12CD34` is a valid code, and decoding its words gives it back. -/
theorem decode_encodeAsWords_witness :
    WellFormed sampleWordlist ∧ asciiWords sampleWordlist = true ∧
      ValidCode "AB12CD34".toList ∧
      decodePgpIfNeeded (some sampleWordlist) (encodeAsWords sampleWordlist "AB12CD34".toList)
        = .ok "AB12CD34".toList :=
  ⟨sampleWordlist_wellFormed, by decide, by decide,
    decode_encodeAsWords sampleWordlist "AB12CD34".toList sampleWordlist_wellFormed
      (by decide) (by decide)⟩

set_option maxRecDepth 100000 in
/-- C1 as stated fails.  With a wordlist whose words are distinct but equal
in pairs when letter case is ignored, the words of `AB12CD34` are rejected
with a parity error; with a wordlist that has an empty word, the words of
`0012` are one token only and the decoder returns that token upper-cased. -/
theorem decode_encodeAsWords_asStated_fails :
    (WellFormedAsStated caseWordlist ∧ ValidCode "AB12CD34".toList ∧
      decodePgpIfNeeded (some caseWordlist) (encodeAsWords caseWordlist "AB12CD34".toList)
        ≠ .ok "AB12CD34".toList) ∧
    (WellFormedAsStated emptyWordWordlist ∧ ValidCode "0012".toList ∧
      decodePgpIfNeeded (some emptyWordWordlist) (encodeAsWords emptyWordWordlist "0012".toList)
        ≠ .ok "0012".toList) :=
  ⟨⟨caseWordlist_asStated, by decide, by decide⟩,
    ⟨emptyWordWordlist_asStated, by decide, by decide⟩⟩

theorem trim_map (f : Char → Char) (hf : ∀ c, isWhiteSpace (f c) = isWhiteSpace c)
    (s : JSString) : trim (s.map f) = (trim s).map f := by
  have hcomp : (isWhiteSpace ∘ f) = isWhiteSpace := funext hf
  unfold trim
  rw [List.dropWhile_map, hcomp]
  generalize s.dropWhile isWhiteSpace = t
  unfold List.rdropWhile
  rw [← List.map_reverse, List.dropWhile_map, hcomp, List.map_reverse]

theorem toUpperCase_trim_toLowerCase (s : JSString) :
    toUpperCase (trim (toLowerCase s)) = toUpperCase (trim s) := by
  unfold toLowerCase toUpperCase
  rw [trim_map Char.toLower isWhiteSpace_toLower, List.map_map]
  congr 1
  funext c
  exact toUpper_toLower c

/-- C2 (amended): an input of ASCII characters that tokenizes to exactly one
token is returned with its leading and trailing white space removed,
upper-cased and otherwise unchanged, whatever the wordlist is (loaded or not),
and no error is raised. -/
theorem decode_single_token (wordlist : Option Wordlist) (input : JSString)
    (_hascii : isAscii input = true)
    (h : (splitWords (trim (toLowerCase input))).length = 1) :
    decodePgpIfNeeded wordlist input = .ok (toUpperCase (trim input)) := by
  unfold decodePgpIfNeeded
  simp only [h, if_true, toUpperCase_trim_toLowerCase]

/-- C2, an instance: ` ab12-` is one token and is returned as `AB12-`. -/
theorem decode_single_token_witness :
    isAscii " ab12-".toList = true ∧
      (splitWords (trim (toLowerCase " ab12-".toList))).length = 1 ∧
      decodePgpIfNeeded none " ab12-".toList = .ok "AB12-".toList :=
  ⟨by decide, by decide, decode_single_token none " ab12-".toList (by decide) (by decide)⟩

/-- C2 as stated fails: ` ab` is one token, and the decoder returns `AB`, not
the upper-cased input ` AB`. -/
theorem decode_single_token_not_unchanged :
    (splitWords (trim (toLowerCase " ab".toList))).length = 1 ∧
      decodePgpIfNeeded none " ab".toList = .ok "AB".toList ∧
      decodePgpIfNeeded none " ab".toList ≠ .ok (toUpperCase " ab".toList) :=
  ⟨by decide, by decide, by decide⟩

theorem parityMismatch_nat (b cls : Nat) :
    parityMismatch (some (b : Int)) cls = !decide (b % 2 = cls) := by
  simp only [parityMismatch]
  rw [Int.tmod_eq_emod (by omega) (by omega)]
  by_cases h : b % 2 = cls
  · simp only [h, decide_True, Bool.not_true, bne_eq_false_iff_eq]
    omega
  · simp only [h, decide_False, Bool.not_false, bne_iff_ne, ne_eq]
    omega

theorem search_of_isWordOf {wl : Wordlist} (hwl : WellFormed wl) {word : JSString} {cls b : Nat}
    (h : IsWordOf wl word cls b) :
    searchWordlist word wl = .ok (some (some (b : Int), cls)) := by
  obtain ⟨k, o, e, hm, hk, hc⟩ := h
  have hs := searchWordlist_of_mem wl hwl.asStated.wordPairs hwl.distinctLower hm
  rcases hc with ⟨rfl, rfl⟩ | ⟨rfl, rfl⟩
  · rw [hs.1, hk]
  · rw [hs.2, hk]

theorem decodesCleanly_of_isWordOf {wl : Wordlist} (hwl : WellFormed wl) {word : JSString}
    {cls b : Nat} (h : IsWordOf wl word cls b) (hpar : b % 2 = cls) : DecodesCleanly wl word :=
  ⟨some (b : Int), cls, search_of_isWordOf hwl h, by rw [parityMismatch_nat]; simp [hpar]⟩

theorem searchWordlist_found (wl : Wordlist) (hp : ∀ x ∈ wl, isWordPair x.2 = true)
    (word : JSString) (hw : word ∈ (wordsOf wl).map toLowerCase) :
    ∃ b cls, searchWordlist word wl = .ok (some (b, cls)) := by
  induction wl with
  | nil => simp [wordsOf] at hw
  | cons x rest ih =>
    obtain ⟨k', ent⟩ := x
    have hx := hp (k', ent) (List.mem_cons_self _ _)
    cases ent with
    | invalid => simp [isWordPair] at hx
    | pair a b =>
      cases a with
      | other => simp [isWordPair] at hx
      | str o' =>
        cases b with
        | other => simp [isWordPair] at hx
        | str e' =>
          by_cases h1 : word = toLowerCase o'
          · exact ⟨parseInt16 k', 1, by simp [searchWordlist, h1]⟩
          · by_cases h2 : word = toLowerCase e'
            · exact ⟨parseInt16 k', 0, by rw [searchWordlist, if_neg h1, if_pos h2]⟩
            · simp only [wordsOf, List.map_cons, List.mem_cons, h1, h2, false_or] at hw
              obtain ⟨b, cls, hs⟩ := ih (fun y hy => hp y (List.mem_cons_of_mem _ hy)) hw
              exact ⟨b, cls, by simp [searchWordlist, h1, h2, hs]⟩

theorem isWordOf_mem {wl : Wordlist} {word : JSString} {cls b : Nat}
    (h : IsWordOf wl word cls b) : word ∈ (wordsOf wl).map toLowerCase := by
  obtain ⟨k, o, e, hm, _, hc⟩ := h
  rcases hc with ⟨_, rfl⟩ | ⟨_, rfl⟩
  · exact List.mem_map_of_mem _ (mem_wordsOf_of_mem hm).1
  · exact List.mem_map_of_mem _ (mem_wordsOf_of_mem hm).2

theorem decodeWords_clean_prefix (wl : Wordlist) (pre rest : List JSString)
    (hpre : ∀ w ∈ pre, DecodesCleanly wl w) (i : Nat) (e : JSError)
    (hrest : decodeWords wl (i + pre.length) rest = .error e) :
    decodeWords wl i (pre ++ rest) = .error e := by
  induction pre generalizing i with
  | nil => simpa using hrest
  | cons w ws ih =>
    obtain ⟨b, cls, hw, hpar⟩ := hpre w (List.mem_cons_self _ _)
    have hnext := ih (fun x hx => hpre x (List.mem_cons_of_mem _ hx)) (i + 1)
      (by rw [← hrest]; congr 1; simp only [List.length_cons]; omega)
    have happ : ws.append rest = ws ++ rest := rfl
    simp only [List.cons_append, decodeWords, hw, hpar, Bool.false_eq_true, if_false, happ, hnext]

theorem isValidationError_invalidWord (i : Nat) (word : JSString) (cls : Nat) :
    isValidationError (.error (invalidWordMessage i word cls)) = true := by
  have h : "Invalid word".toList <:+: invalidWordMessage i word cls := by
    refine List.IsPrefix.isInfix ⟨" at position ".toList ++ decimal i ++ ": ".toList ++ [dquote]
      ++ word ++ [dquote] ++ " is for ".toList
      ++ (if cls = 1 then "odd".toList else "even".toList) ++ " bytes.".toList, ?_⟩
    simp [invalidWordMessage]
  simp only [isValidationError, includes, Bool.or_eq_true, decide_eq_true_eq]
  exact Or.inr h

theorem isValidationError_unknownWord (i : Nat) (word : JSString) :
    isValidationError (.error (unknownWordMessage i word)) = true := by
  have h : "Unknown PGP word".toList <:+: unknownWordMessage i word := by
    refine List.IsPrefix.isInfix ⟨" at position ".toList ++ decimal i ++ ": ".toList ++ [dquote]
      ++ word ++ [dquote] ++ ". Word was forgotten or mistyped.".toList, ?_⟩
    simp [unknownWordMessage]
  simp only [isValidationError, includes, Bool.or_eq_true, decide_eq_true_eq]
  exact Or.inl h

/-- C3: in a multi-token input, if the first token that does not decode
cleanly is at position `i` (the tokens `pre` before it decode cleanly) and is
the odd-class word of an even byte or the even-class word of an odd byte,
then decoding with a well-formed wordlist fails with the invalid-parity error
that names position `i` and the word, for the class in which the search found
the word; no code is returned. -/
theorem decode_wrong_parity (wl : Wordlist) (input : JSString) (pre : List JSString)
    (word : JSString) (post : List JSString) (cls : Nat) (hwl : WellFormedAsStated wl)
    (htokens : splitWords (trim (toLowerCase input)) = pre ++ word :: post)
    (hmulti : 1 < (pre ++ word :: post).length)
    (hpre : ∀ w ∈ pre, DecodesCleanly wl w) (hnot : ¬ DecodesCleanly wl word)
    (hword : HasWrongParity wl word cls) :
    ∃ found, decodePgpIfNeeded (some wl) input
      = .error (.error (invalidWordMessage pre.length word found)) := by
  obtain ⟨b, hw, _⟩ := hword
  obtain ⟨fb, found, hs⟩ := searchWordlist_found wl hwl.wordPairs word (isWordOf_mem hw)
  have hmis : parityMismatch fb found = true := by
    cases h : parityMismatch fb found with
    | true => rfl
    | false => exact absurd ⟨fb, found, hs, h⟩ hnot
  have hhead : decodeWords wl (0 + pre.length) (word :: post)
      = .error (.error (invalidWordMessage pre.length word found)) := by
    simp only [decodeWords, hs, hmis, if_true, Nat.zero_add]
  have hall := decodeWords_clean_prefix wl pre (word :: post) hpre 0 _ hhead
  refine ⟨found, ?_⟩
  unfold decodePgpIfNeeded
  simp only [htokens, Nat.ne_of_gt hmulti, if_false, hall, isValidationError_invalidWord, if_true]

/-- C4: in a multi-token input whose tokens before position `i` decode
cleanly and whose token at position `i` matches no word of the wordlist,
decoding with a well-formed wordlist fails with the unknown-word error that
reports position `i` and the token; no code is returned. -/
theorem decode_unknown_word (wl : Wordlist) (input : JSString) (pre : List JSString)
    (word : JSString) (post : List JSString) (hwl : WellFormedAsStated wl)
    (htokens : splitWords (trim (toLowerCase input)) = pre ++ word :: post)
    (hmulti : 1 < (pre ++ word :: post).length)
    (hpre : ∀ w ∈ pre, DecodesCleanly wl w)
    (hword : word ∉ (wordsOf wl).map toLowerCase) :
    decodePgpIfNeeded (some wl) input
      = .error (.error (unknownWordMessage pre.length word)) := by
  have hhead : decodeWords wl (0 + pre.length) (word :: post)
      = .error (.error (unknownWordMessage pre.length word)) := by
    simp only [decodeWords, searchWordlist_none wl hwl.wordPairs word hword, Nat.zero_add]
  have hall := decodeWords_clean_prefix wl pre (word :: post) hpre 0 _ hhead
  unfold decodePgpIfNeeded
  simp only [htokens, Nat.ne_of_gt hmulti, if_false, hall, isValidationError_unknownWord, if_true]

set_option maxRecDepth 100000 in
theorem sample_o01_clean : ∀ w ∈ ["o01".toList], DecodesCleanly sampleWordlist w := by
  intro w hw
  rw [List.mem_singleton] at hw
  subst hw
  exact ⟨some 1, 1, by decide, by decide⟩

set_option maxRecDepth 100000 in
theorem sample_o02_not_clean : ¬ DecodesCleanly sampleWordlist "o02".toList := by
  rintro ⟨b, cls, hs, hp⟩
  have e : searchWordlist "o02".toList sampleWordlist = .ok (some (some 2, 1)) := by decide
  rw [e] at hs
  injection hs with hs
  injection hs with hs
  injection hs with h1 h2
  subst h1 h2
  exact absurd hp (by decide)

set_option maxRecDepth 100000 in
theorem sample_o02_wrong : HasWrongParity sampleWordlist "o02".toList 1 :=
  ⟨2, ⟨"02".toList, "o02".toList, "e02".toList, by decide, by decide, Or.inl ⟨rfl, by decide⟩⟩,
    by decide⟩

set_option maxRecDepth 100000 in
theorem sample_zebra_unknown : "zebra".toList ∉ (wordsOf sampleWordlist).map toLowerCase := by
  decide

/-- C3, an instance: in `o01 o02` the second token is the odd-class word of
the even byte 02. -/
theorem decode_wrong_parity_witness :
    WellFormedAsStated sampleWordlist ∧
      splitWords (trim (toLowerCase "o01 o02".toList)) = ["o01".toList] ++ "o02".toList :: [] ∧
      1 < (["o01".toList] ++ "o02".toList :: []).length ∧
      (∀ w ∈ ["o01".toList], DecodesCleanly sampleWordlist w) ∧
      ¬ DecodesCleanly sampleWordlist "o02".toList ∧
      HasWrongParity sampleWordlist "o02".toList 1 ∧
      ∃ found, decodePgpIfNeeded (some sampleWordlist) "o01 o02".toList
        = .error (.error (invalidWordMessage 1 "o02".toList found)) :=
  ⟨sampleWordlist_wellFormed.asStated, by decide, by decide, sample_o01_clean,
    sample_o02_not_clean, sample_o02_wrong,
    decode_wrong_parity sampleWordlist "o01 o02".toList ["o01".toList] "o02".toList [] 1
      sampleWordlist_wellFormed.asStated (by decide) (by decide) sample_o01_clean
      sample_o02_not_clean sample_o02_wrong⟩

/-- C4, an instance: in `o01 zebra` the second token is in no entry. -/
theorem decode_unknown_word_witness :
    WellFormedAsStated sampleWordlist ∧
      splitWords (trim (toLowerCase "o01 zebra".toList)) = ["o01".toList] ++ "zebra".toList :: [] ∧
      1 < (["o01".toList] ++ "zebra".toList :: []).length ∧
      (∀ w ∈ ["o01".toList], DecodesCleanly sampleWordlist w) ∧
      "zebra".toList ∉ (wordsOf sampleWordlist).map toLowerCase ∧
      decodePgpIfNeeded (some sampleWordlist) "o01 zebra".toList
        = .error (.error (unknownWordMessage 1 "zebra".toList)) :=
  ⟨sampleWordlist_wellFormed.asStated, by decide, by decide, sample_o01_clean,
    sample_zebra_unknown,
    decode_unknown_word sampleWordlist "o01 zebra".toList ["o01".toList] "zebra".toList []
      sampleWordlist_wellFormed.asStated (by decide) (by decide) sample_o01_clean
      sample_zebra_unknown⟩

/-- C5 (amended): for an input of ASCII characters and a wordlist whose words
are ASCII and whose keys `parseInt` reads exactly, when the decoding of a
multi-token input raises an exception whose message names neither validation
error (such as the `TypeError` of a pair whose elements are not strings), the
exception is not propagated and the trimmed input is returned upper-cased. -/
theorem decode_fallback (wl : Wordlist) (input : JSString) (e : JSError)
    (_hascii : isAscii input = true) (_hwords : asciiWords wl = true)
    (_hkeys : exactKeys wl = true)
    (hmulti : (splitWords (trim (toLowerCase input))).length ≠ 1)
    (hraise : decodeWords wl 0 (splitWords (trim (toLowerCase input))) = .error e)
    (hother : isValidationError e = false) :
    decodePgpIfNeeded (some wl) input = .ok (toUpperCase (trim input)) := by
  unfold decodePgpIfNeeded
  simp only [hmulti, if_false, hraise, hother, Bool.false_eq_true, toUpperCase_trim_toLowerCase]

/-- C5, an instance: an entry that is a pair of two values that are not
strings. -/
theorem decode_fallback_witness :
    isAscii " a b ".toList = true ∧
      asciiWords [("00".toList, .pair .other .other)] = true ∧
      exactKeys [("00".toList, .pair .other .other)] = true ∧
      (splitWords (trim (toLowerCase " a b ".toList))).length ≠ 1 ∧
      decodeWords [("00".toList, .pair .other .other)] 0
        (splitWords (trim (toLowerCase " a b ".toList))) = .error .typeError ∧
      isValidationError .typeError = false ∧
      decodePgpIfNeeded (some [("00".toList, .pair .other .other)]) " a b ".toList
        = .ok "A B".toList :=
  ⟨by decide, by decide, by decide, by decide, by decide, by decide,
    decode_fallback [("00".toList, .pair .other .other)] " a b ".toList .typeError
      (by decide) (by decide) (by decide) (by decide) (by decide) (by decide)⟩

/-- C5 as stated fails: with an entry that is not a pair, the search raises
the error `Invalid wordlist entry for 00`, which is neither the unknown-word
error nor the invalid-parity error of any position and word, and
`decodePgpIfNeeded` propagates it instead of returning `A B`. -/
theorem decode_invalid_entry_propagates :
    decodeWords [("00".toList, .invalid)] 0 (splitWords (trim (toLowerCase "a b".toList)))
        = .error (.error (invalidEntryMessage "00".toList)) ∧
      (∀ i w, unknownWordMessage i w ≠ invalidEntryMessage "00".toList) ∧
      (∀ i w cls, invalidWordMessage i w cls ≠ invalidEntryMessage "00".toList) ∧
      decodePgpIfNeeded (some [("00".toList, .invalid)]) "a b".toList
        = .error (.error "Invalid wordlist entry for 00".toList) ∧
      decodePgpIfNeeded (some [("00".toList, .invalid)]) "a b".toList
        ≠ .ok (toUpperCase (trim "a b".toList)) := by
  refine ⟨by decide, ?_, ?_, by decide, by decide⟩
  · intro i w h
    simp [unknownWordMessage, invalidEntryMessage] at h
  · intro i w cls h
    simp [invalidWordMessage, invalidEntryMessage] at h

/-! # The verification phrase and the key exchange -/

theorem mem_hexDigits {c : Char} {d : Nat} (h : hexDigitValue c = some d) : c ∈ hexDigits := by
  unfold hexDigitValue at h
  have hc : (48 ≤ c.toNat ∧ c.toNat ≤ 57) ∨ (97 ≤ c.toNat ∧ c.toNat ≤ 102) ∨
      (65 ≤ c.toNat ∧ c.toNat ≤ 70) := by
    by_cases h1 : 48 ≤ c.toNat ∧ c.toNat ≤ 57
    · exact Or.inl h1
    · by_cases h2 : 97 ≤ c.toNat ∧ c.toNat ≤ 102
      · exact Or.inr (Or.inl h2)
      · by_cases h3 : 65 ≤ c.toNat ∧ c.toNat ≤ 70
        · exact Or.inr (Or.inr h3)
        · simp [h1, h2, h3] at h
  rw [← Char.ofNat_toNat c]
  generalize c.toNat = n at hc
  rcases hc with ⟨h1, h2⟩ | ⟨h1, h2⟩ | ⟨h1, h2⟩ <;> interval_cases n <;> decide

theorem hexDigits_check : ∀ c1 ∈ hexDigits, ∀ c2 ∈ hexDigits,
    parseInt16 [c1, c2]
      = some ((16 * (hexDigitValue c1).getD 0 + (hexDigitValue c2).getD 0 : Nat) : Int) ∧
    (hexDigitValue c1).getD 0 < 16 ∧ (hexDigitValue c2).getD 0 < 16 := by
  decide

theorem parseInt16_hexOfByte {s : JSString} {b : Nat} (h : HexOfByte s b) :
    ∃ c1 c2, s = [c1, c2] ∧ parseInt16 [c1, c2] = some (b : Int) ∧ b < 256 := by
  obtain ⟨c1, c2, d1, d2, rfl, h1, h2, rfl⟩ := h
  have hc := hexDigits_check c1 (mem_hexDigits h1) c2 (mem_hexDigits h2)
  simp only [h1, h2, Option.getD_some] at hc
  exact ⟨c1, c2, rfl, hc.1, by omega⟩

theorem twoBytes_nat (a b : Nat) (hb : b < 256) :
    twoBytes (a : Int) (b : Int) = ((256 * a + b : Nat) : Int) := by
  have h := Nat.mul_add_lt_is_or (i := 8) (b := b) (by simpa using hb) a
  have e : ((a : Int) * 256) = ((2 ^ 8 * a : Nat) : Int) := by push_cast; ring
  unfold twoBytes
  rw [e]
  show ((2 ^ 8 * a ||| b : Nat) : Int) = _
  rw [← h]

theorem phraseWord_nat (W : List JSString) (hW : W ≠ []) (n : Nat) :
    phraseWord W (n : Int)
      = W.get ⟨n % W.length, Nat.mod_lt _ (List.length_pos.mpr hW)⟩ := by
  have hpos : 0 < W.length := List.length_pos.mpr hW
  have hmod : Int.tmod (n : Int) (W.length : Int) = ((n % W.length : Nat) : Int) := by
    rw [Int.tmod_eq_emod (by omega) (by omega)]
    norm_cast
  unfold phraseWord
  rw [hmod]
  have h1 : ¬ W.length = 0 := by omega
  have h2 : ¬ ((n % W.length : Nat) : Int) < 0 := by omega
  simp only [h1, h2, if_false, Int.toNat_ofNat]
  rw [List.getD_eq_getElem _ _ (Nat.mod_lt _ hpos)]
  rfl

/-- C6: for a hash that starts with six bytes `b0` ... `b5` in hexadecimal and
a non-empty phrase wordlist `W`, `hashToWords` gives the three words of `W` at
`(256*b0+b1) mod L`, `(256*b2+b3) mod L` and `(256*b4+b5) mod L`, in that
order, with one space between them.  The indices are within `W`, and what
follows the sixth byte (`rest`) has no influence. -/
theorem hashToWords_spec (W : List JSString) (hW : W ≠ []) (s0 s1 s2 s3 s4 s5 rest : JSString)
    (b0 b1 b2 b3 b4 b5 : Nat) (h0 : HexOfByte s0 b0) (h1 : HexOfByte s1 b1)
    (h2 : HexOfByte s2 b2) (h3 : HexOfByte s3 b3) (h4 : HexOfByte s4 b4)
    (h5 : HexOfByte s5 b5) :
    hashToWords W (s0 ++ s1 ++ s2 ++ s3 ++ s4 ++ s5 ++ rest)
      = W.get ⟨(256 * b0 + b1) % W.length, Nat.mod_lt _ (List.length_pos.mpr hW)⟩ ++ [' '] ++
        W.get ⟨(256 * b2 + b3) % W.length, Nat.mod_lt _ (List.length_pos.mpr hW)⟩ ++ [' '] ++
        W.get ⟨(256 * b4 + b5) % W.length, Nat.mod_lt _ (List.length_pos.mpr hW)⟩ := by
  obtain ⟨c0, d0, rfl, p0, l0⟩ := parseInt16_hexOfByte h0
  obtain ⟨c1, d1, rfl, p1, l1⟩ := parseInt16_hexOfByte h1
  obtain ⟨c2, d2, rfl, p2, l2⟩ := parseInt16_hexOfByte h2
  obtain ⟨c3, d3, rfl, p3, l3⟩ := parseInt16_hexOfByte h3
  obtain ⟨c4, d4, rfl, p4, l4⟩ := parseInt16_hexOfByte h4
  obtain ⟨c5, d5, rfl, p5, l5⟩ := parseInt16_hexOfByte h5
  have hb : hashBytes ([c0, d0] ++ [c1, d1] ++ [c2, d2] ++ [c3, d3] ++ [c4, d4] ++ [c5, d5] ++ rest)
      = some (b0 : Int) :: some (b1 : Int) :: some (b2 : Int) :: some (b3 : Int) ::
        some (b4 : Int) :: some (b5 : Int) :: hashBytes rest := by
    simp only [List.cons_append, List.nil_append, hashBytes, p0, p1, p2, p3, p4, p5]
    rfl
  unfold hashToWords
  rw [hb]
  have hr : List.range 3 = [0, 1, 2] := rfl
  simp only [hr, List.map_cons, List.map_nil, byteOrZero, join]
  simp only [Nat.zero_mul, Nat.one_mul, Nat.reduceMul, Nat.reduceAdd, List.getElem?_cons_zero,
    List.getElem?_cons_succ, twoBytes_nat _ _ l1, twoBytes_nat _ _ l3, twoBytes_nat _ _ l5,
    phraseWord_nat W hW, List.append_assoc]

/-- C6, an instance: the hash `00010002010aff` on a list of three words; the
indices are 1, 2 and 266 mod 3 = 2. -/
theorem hashToWords_spec_witness :
    ["alpha".toList, "beta".toList, "gamma".toList] ≠ [] ∧
      HexOfByte "00".toList 0 ∧ HexOfByte "01".toList 1 ∧ HexOfByte "00".toList 0 ∧
      HexOfByte "02".toList 2 ∧ HexOfByte "01".toList 1 ∧ HexOfByte "0a".toList 10 ∧
      hashToWords ["alpha".toList, "beta".toList, "gamma".toList]
          ("00".toList ++ "01".toList ++ "00".toList ++ "02".toList ++ "01".toList ++ "0a".toList
            ++ "ff".toList)
        = "beta gamma gamma".toList :=
  ⟨by decide, ⟨'0', '0', 0, 0, rfl, by decide, by decide, by decide⟩,
    ⟨'0', '1', 0, 1, rfl, by decide, by decide, by decide⟩,
    ⟨'0', '0', 0, 0, rfl, by decide, by decide, by decide⟩,
    ⟨'0', '2', 0, 2, rfl, by decide, by decide, by decide⟩,
    ⟨'0', '1', 0, 1, rfl, by decide, by decide, by decide⟩,
    ⟨'0', 'a', 0, 10, rfl, by decide, by decide, by decide⟩,
    (hashToWords_spec ["alpha".toList, "beta".toList, "gamma".toList] (by decide)
      "00".toList "01".toList "00".toList "02".toList "01".toList "0a".toList "ff".toList
      0 1 0 2 1 10
      ⟨'0', '0', 0, 0, rfl, by decide, by decide, by decide⟩
      ⟨'0', '1', 0, 1, rfl, by decide, by decide, by decide⟩
      ⟨'0', '0', 0, 0, rfl, by decide, by decide, by decide⟩
      ⟨'0', '2', 0, 2, rfl, by decide, by decide, by decide⟩
      ⟨'0', '1', 0, 1, rfl, by decide, by decide, by decide⟩
      ⟨'0', 'a', 0, 10, rfl, by decide, by decide, by decide⟩).trans (by decide)⟩

theorem computeSharedSecret_comm {G : Type} [AddCommMonoid G] (curve : Curve G)
    (A B : KeyPair G) (hA : ValidKeyPair curve A) (hB : ValidKeyPair curve B) :
    computeSharedSecret curve A.privateKey B.publicKey
      = computeSharedSecret curve B.privateKey A.publicKey := by
  unfold ValidKeyPair at hA hB
  unfold computeSharedSecret
  rw [hA, hB, ← mul_nsmul', ← mul_nsmul', Nat.mul_comm]

/-- C7: for two valid key pairs `A` and `B` on the curve, the session key
derived from `computeSharedSecret(A.private, B.public)` is the one derived from
`computeSharedSecret(B.private, A.public)`, and both peers get the same
verification phrase from `hashToWords(hashBuffer(sharedSecret))` with the same
phrase wordlist. -/
theorem session_key_symmetric {G : Type} [AddCommMonoid G] (curve : Curve G)
    (hkdf : List Nat → List Nat → List Nat → List Nat) (sha256 : List Nat → List Nat)
    (W : List JSString) (A B : KeyPair G) (hA : ValidKeyPair curve A)
    (hB : ValidKeyPair curve B) :
    deriveKeyFromSharedSecret hkdf (computeSharedSecret curve A.privateKey B.publicKey)
        = deriveKeyFromSharedSecret hkdf (computeSharedSecret curve B.privateKey A.publicKey) ∧
      hashToWords W (hashBuffer sha256 (computeSharedSecret curve A.privateKey B.publicKey))
        = hashToWords W (hashBuffer sha256 (computeSharedSecret curve B.privateKey A.publicKey)) := by
  rw [computeSharedSecret_comm curve A B hA hB]
  exact ⟨rfl, rfl⟩

/-- C7, an instance: the key pairs `(2, 2)` and `(3, 3)` on the sample curve
both give the shared point 6. -/
theorem session_key_symmetric_witness :
    ValidKeyPair sampleCurve ⟨2, 2⟩ ∧ ValidKeyPair sampleCurve ⟨3, 3⟩ ∧
      deriveKeyFromSharedSecret (fun _ _ ikm => ikm) (computeSharedSecret sampleCurve 2 (3 : Int))
        = deriveKeyFromSharedSecret (fun _ _ ikm => ikm)
            (computeSharedSecret sampleCurve 3 (2 : Int)) ∧
      hashToWords ["alpha".toList, "beta".toList] (hashBuffer id (computeSharedSecret sampleCurve 2 (3 : Int)))
        = hashToWords ["alpha".toList, "beta".toList]
            (hashBuffer id (computeSharedSecret sampleCurve 3 (2 : Int))) :=
  ⟨by simp [ValidKeyPair, sampleCurve], by simp [ValidKeyPair, sampleCurve],
    session_key_symmetric sampleCurve (fun _ _ ikm => ikm) id ["alpha".toList, "beta".toList]
      ⟨2, 2⟩ ⟨3, 3⟩ (by simp [ValidKeyPair, sampleCurve]) (by simp [ValidKeyPair, sampleCurve])⟩

/-! # The receive pipeline -/

theorem dedupStep_eq (displayed : List Timestamp) (batch : List ReceivedMessage) :
    dedupStep displayed batch
      = (trackDisplayed displayed (newMessagesOf displayed batch), newMessagesOf displayed batch) := by
  unfold dedupStep
  by_cases hb : batch.length > 0
  · by_cases hn : (newMessagesOf displayed batch).length > 0
    · simp only [hb, hn, if_true]
    · have hnil : newMessagesOf displayed batch = [] := by
        cases h : newMessagesOf displayed batch with
        | nil => rfl
        | cons a l => rw [h] at hn; simp at hn
      simp only [hb, if_true, hnil, List.length_nil, gt_iff_lt, Nat.lt_irrefl, if_false,
        trackDisplayed, List.foldl_nil]
  · have hnil : batch = [] := by
      cases batch with
      | nil => rfl
      | cons a l => simp at hb
    subst hnil
    simp [newMessagesOf, trackDisplayed]

theorem mem_setAdd (displayed : List Timestamp) (id t : Timestamp) :
    t ∈ setAdd displayed id ↔ t ∈ displayed ∨ t = id := by
  unfold setAdd setHas
  by_cases h : displayed.contains id = true
  · simp only [h, if_true]
    constructor
    · exact Or.inl
    · rintro (h1 | h1)
      · exact h1
      · rw [h1]; simpa using h
  · simp only [h, Bool.false_eq_true, if_false, List.mem_append, List.mem_singleton]

theorem mem_trackDisplayed (newMessages : List ReceivedMessage) (displayed : List Timestamp)
    (t : Timestamp) :
    t ∈ trackDisplayed displayed newMessages ↔
      t ∈ displayed ∨ ∃ m ∈ newMessages, m.timestamp.truthy = true ∧ m.timestamp = t := by
  induction newMessages generalizing displayed with
  | nil => simp [trackDisplayed]
  | cons a l ih =>
    have hstep : trackDisplayed displayed (a :: l)
        = trackDisplayed (if a.timestamp.truthy then setAdd displayed a.timestamp else displayed) l := rfl
    rw [hstep, ih]
    by_cases ha : a.timestamp.truthy = true
    · simp only [ha, if_true, mem_setAdd, List.mem_cons, exists_eq_or_imp, true_and]
      constructor
      · rintro ((h | h) | h)
        · exact Or.inl h
        · exact Or.inr (Or.inl h.symm)
        · exact Or.inr (Or.inr h)
      · rintro (h | h | h)
        · exact Or.inl (Or.inl h)
        · exact Or.inl (Or.inr h.symm)
        · exact Or.inr h
    · simp only [ha, Bool.false_eq_true, if_false, List.mem_cons, exists_eq_or_imp, false_and,
        false_or]

theorem mem_newMessagesOf (displayed : List Timestamp) (batch : List ReceivedMessage)
    (m : ReceivedMessage) :
    m ∈ newMessagesOf displayed batch ↔
      m ∈ batch ∧ m.timestamp.truthy = true ∧ m.timestamp ∉ displayed := by
  simp [newMessagesOf, setHas]

/-- C8 (amended): the dedup step passes on exactly the messages of the batch
whose timestamp is truthy (present and not zero) and not yet in the set, in
batch order; afterwards the set holds what it held and the timestamps of the
messages passed on; and the step run again on the same batch passes on no
message and leaves the set as it is. -/
theorem dedupStep_spec (displayed : List Timestamp) (batch : List ReceivedMessage) :
    (dedupStep displayed batch).2
        = batch.filter (fun m => m.timestamp.truthy && !decide (m.timestamp ∈ displayed)) ∧
      (∀ t, t ∈ (dedupStep displayed batch).1 ↔
        t ∈ displayed ∨ ∃ m ∈ (dedupStep displayed batch).2, m.timestamp = t) ∧
      dedupStep (dedupStep displayed batch).1 batch = ((dedupStep displayed batch).1, []) := by
  rw [dedupStep_eq]
  refine ⟨?_, ?_, ?_⟩
  · simp [newMessagesOf, setHas]
  · intro t
    simp only [mem_trackDisplayed]
    constructor
    · rintro (h | ⟨m, hm, _, ht⟩)
      · exact Or.inl h
      · exact Or.inr ⟨m, hm, ht⟩
    · rintro (h | ⟨m, hm, ht⟩)
      · exact Or.inl h
      · exact Or.inr ⟨m, hm, ((mem_newMessagesOf _ _ _).mp hm).2.1, ht⟩
  · have hnone : newMessagesOf (trackDisplayed displayed (newMessagesOf displayed batch)) batch
        = [] := by
      rw [List.eq_nil_iff_forall_not_mem]
      intro m hm
      obtain ⟨hb, htr, hnot⟩ := (mem_newMessagesOf _ _ _).mp hm
      apply hnot
      rw [mem_trackDisplayed]
      by_cases hd : m.timestamp ∈ displayed
      · exact Or.inl hd
      · exact Or.inr ⟨m, (mem_newMessagesOf _ _ _).mpr ⟨hb, htr, hd⟩, htr, rfl⟩
    rw [dedupStep_eq, hnone]
    rfl

/-- C8 as stated fails: a message whose timestamp is 0 has an identifier that
is not in the empty set, and the dedup step does not pass it on. -/
theorem dedupStep_drops_zero_timestamp :
    zeroTimestampMessage.timestamp ∉ ([] : List Timestamp) ∧
      (dedupStep [] [zeroTimestampMessage]).2 = [] ∧
      (dedupStep [] [zeroTimestampMessage]).2 ≠ [zeroTimestampMessage] :=
  ⟨by decide, by decide, by decide⟩

theorem decryptText_raw_key {K : Type} (p : Platform K) (ciphertext iv authTag : JSString)
    (bytes : List Nat) :
    decryptText p ciphertext iv authTag (.raw bytes) = .ok unableToDecrypt := by
  unfold decryptText decryptTextBody
  cases hexToBytes ciphertext <;> cases hexToBytes iv <;> cases hexToBytes authTag <;> rfl

theorem sent_text_shown {K : Type} (p : Platform K) (encryptionKey iv : List Nat)
    (text : JSString) (timestamp : Timestamp) :
    displayOne p (some encryptionKey) (asReceived (sendTextEnvelope p encryptionKey iv text) timestamp)
      = .ok (.text unableToDecryptMessage) := by
  simp [displayOne, asReceived, sendTextEnvelope, truthy]

/-- C9 fails on the code: the envelope that the send path builds for the text
`hi`, handed unchanged to the receive path under the same key, is shown as
`[Unable to decrypt message]` and not as `hi`. -/
theorem sent_text_not_recovered :
    displayOne samplePlatform (some sampleKey)
        (asReceived (sendTextEnvelope samplePlatform sampleKey sampleNonce "hi".toList) (.num 1))
      = .ok (.text "[Unable to decrypt message]".toList) ∧
    displayOne samplePlatform (some sampleKey)
        (asReceived (sendTextEnvelope samplePlatform sampleKey sampleNonce "hi".toList) (.num 1))
      ≠ .ok (.text "hi".toList) := by
  rw [sent_text_shown]
  exact ⟨rfl, by decide⟩

theorem decryptText_cases {K : Type} (p : Platform K) (ciphertext iv authTag : JSString)
    (key : KeyValue K) :
    decryptText p ciphertext iv authTag key = .ok unableToDecrypt ∨
      ∃ k ct nonce tag plain, key = .cryptoKey k ∧ hexToBytes ciphertext = .ok ct ∧
        hexToBytes iv = .ok nonce ∧ hexToBytes authTag = .ok tag ∧
        p.decrypt k nonce (ct ++ tag) = some plain ∧
        decryptText p ciphertext iv authTag key = .ok (p.decodeText plain) := by
  unfold decryptText decryptTextBody
  cases h1 : hexToBytes ciphertext with
  | error e => exact Or.inl rfl
  | ok ct =>
    cases h2 : hexToBytes iv with
    | error e => exact Or.inl rfl
    | ok nonce =>
      cases h3 : hexToBytes authTag with
      | error e => exact Or.inl rfl
      | ok tag =>
        cases key with
        | raw b => exact Or.inl rfl
        | cryptoKey k =>
          cases h4 : p.decrypt k nonce (ct ++ tag) with
          | none => left; simp [h4]
          | some plain => right; exact ⟨k, ct, nonce, tag, plain, rfl, rfl, rfl, rfl, h4, by simp [h4]⟩

theorem decryptText_ok {K : Type} (p : Platform K) (ciphertext iv authTag : JSString)
    (key : KeyValue K) : ∃ s, decryptText p ciphertext iv authTag key = .ok s := by
  rcases decryptText_cases p ciphertext iv authTag key with h | ⟨_, _, _, _, plain, _, _, _, _, _, h⟩
  · exact ⟨_, h⟩
  · exact ⟨_, h⟩

theorem plainName_ok (f : ReceivedFile) (h : hasName f = true) :
    ∃ name, plainName f = .ok name := by
  unfold plainName
  unfold hasName at h
  by_cases h1 : truthy f.originalName = true
  · have e : (if truthy f.originalName = true then f.originalName else f.filename)
        = f.originalName := by simp only [h1, if_true]
    rw [e]
    cases ho : f.originalName with
    | none => rw [ho] at h1; simp [truthy] at h1
    | some n => exact ⟨n, rfl⟩
  · have e : (if truthy f.originalName = true then f.originalName else f.filename)
        = f.filename := by simp only [h1, Bool.false_eq_true, if_false]
    rw [e]
    cases hf : f.filename with
    | none => simp [h1, hf] at h
    | some n => exact ⟨n, rfl⟩

theorem displayName_ok {K : Type} (p : Platform K) (encryptionKey : Option (List Nat))
    (f : ReceivedFile) (h : hasName f = true) :
    ∃ name, displayName p encryptionKey f = .ok name := by
  unfold displayName
  cases encryptionKey with
  | none => exact plainName_ok f h
  | some key =>
    by_cases hc : (truthy f.encryptedName && truthy f.nameIv && truthy f.nameAuthTag) = true
    · simp only [hc, if_true]
      exact decryptText_ok p _ _ _ _
    · simp only [hc, Bool.false_eq_true, if_false]
      exact plainName_ok f h

theorem displayNames_ok {K : Type} (p : Platform K) (encryptionKey : Option (List Nat))
    (files : List ReceivedFile) (h : ∀ f ∈ files, hasName f = true) :
    ∃ names, displayNames p encryptionKey files = .ok names := by
  induction files with
  | nil => exact ⟨[], rfl⟩
  | cons f rest ih =>
    obtain ⟨names, hn⟩ := ih (fun g hg => h g (List.mem_cons_of_mem _ hg))
    obtain ⟨name, hname⟩ := displayName_ok p encryptionKey f (h f (List.mem_cons_self _ _))
    exact ⟨name :: names, by simp only [displayNames, hname, hn]⟩

theorem displayOne_ok {K : Type} (p : Platform K) (encryptionKey : Option (List Nat))
    (msg : ReceivedMessage) (h : ∀ f ∈ msg.files, hasName f = true) :
    ∃ shown, displayOne p encryptionKey msg = .ok shown := by
  unfold displayOne
  by_cases ht : msg.type = "text".toList
  · simp only [ht, if_true]
    cases encryptionKey with
    | none => by_cases h : truthy msg.text = true <;> simp [h]
    | some key =>
      by_cases hc : (truthy msg.ciphertext && truthy msg.iv && truthy msg.authTag) = true
      · obtain ⟨s, hs⟩ := decryptText_ok p (msg.ciphertext.getD []) (msg.iv.getD [])
          (msg.authTag.getD []) (.raw key)
        exact ⟨.text s, by simp only [hc, if_true, hs]⟩
      · by_cases h : truthy msg.text = true <;> simp [hc, h]
  · simp only [ht, if_false]
    by_cases hf : msg.type = "files".toList
    · obtain ⟨names, hn⟩ := displayNames_ok p encryptionKey msg.files h
      exact ⟨.files names, by simp only [hf, if_true, hn]⟩
    · exact ⟨.empty, by simp only [hf, if_false]⟩

theorem displayReceivedMessages_ok {K : Type} (p : Platform K)
    (encryptionKey : Option (List Nat)) (batch : List ReceivedMessage)
    (h : ∀ msg ∈ batch, ∀ f ∈ msg.files, hasName f = true) :
    ∃ shown, displayReceivedMessages p encryptionKey batch = .ok shown ∧
      List.Forall₂ (fun msg entry => displayOne p encryptionKey msg = .ok entry) batch shown := by
  induction batch with
  | nil => exact ⟨[], rfl, List.Forall₂.nil⟩
  | cons m rest ih =>
    obtain ⟨more, hmore, hall⟩ := ih (fun x hx => h x (List.mem_cons_of_mem _ hx))
    obtain ⟨entry, hentry⟩ := displayOne_ok p encryptionKey m (h m (List.mem_cons_self _ _))
    exact ⟨entry :: more, by simp only [displayReceivedMessages, hentry, hmore],
      List.Forall₂.cons hentry hall⟩

/-- C10: for every ciphertext, nonce and tag string and every key value,
`decryptText` does not raise: it returns the placeholder `[Unable to decrypt]`,
or the decoded plaintext of a decryption that succeeded on the bytes of the
three strings.  So on a batch whose file descriptors have a name to show,
`displayReceivedMessages` does not stop at a message that cannot be decrypted:
it shows one entry for every message, each the entry of that message alone. -/
theorem decryptText_never_raises {K : Type} (p : Platform K) (ciphertext iv authTag : JSString)
    (key : KeyValue K) (encryptionKey : Option (List Nat)) (batch : List ReceivedMessage)
    (hnames : ∀ msg ∈ batch, ∀ f ∈ msg.files, hasName f = true) :
    (decryptText p ciphertext iv authTag key = .ok unableToDecrypt ∨
      ∃ k ct nonce tag plain, key = .cryptoKey k ∧ hexToBytes ciphertext = .ok ct ∧
        hexToBytes iv = .ok nonce ∧ hexToBytes authTag = .ok tag ∧
        p.decrypt k nonce (ct ++ tag) = some plain ∧
        decryptText p ciphertext iv authTag key = .ok (p.decodeText plain)) ∧
    (∃ shown, displayReceivedMessages p encryptionKey batch = .ok shown ∧
      List.Forall₂ (fun msg entry => displayOne p encryptionKey msg = .ok entry) batch shown) :=
  ⟨decryptText_cases p ciphertext iv authTag key,
    displayReceivedMessages_ok p encryptionKey batch hnames⟩

/-- C10, an instance: `decryptText` on an empty nonce gives the placeholder,
and of a batch of a text message that cannot be decrypted and a plain text
message both are shown. -/
theorem decryptText_never_raises_witness :
    (∀ msg ∈ sampleBatch, ∀ f ∈ msg.files, hasName f = true) ∧
      decryptText samplePlatform "6869".toList [] "00".toList (.cryptoKey sampleKey)
        = .ok unableToDecrypt ∧
      displayReceivedMessages samplePlatform (some sampleKey) sampleBatch
        = .ok [.text unableToDecrypt, .text "hello".toList] ∧
      ((decryptText samplePlatform "6869".toList [] "00".toList (.cryptoKey sampleKey)
          = .ok unableToDecrypt ∨
        ∃ k ct nonce tag plain, KeyValue.cryptoKey sampleKey = .cryptoKey k ∧
          hexToBytes "6869".toList = .ok ct ∧ hexToBytes [] = .ok nonce ∧
          hexToBytes "00".toList = .ok tag ∧ samplePlatform.decrypt k nonce (ct ++ tag) = some plain ∧
          decryptText samplePlatform "6869".toList [] "00".toList (.cryptoKey sampleKey)
            = .ok (samplePlatform.decodeText plain)) ∧
      (∃ shown, displayReceivedMessages samplePlatform (some sampleKey) sampleBatch = .ok shown ∧
        List.Forall₂ (fun msg entry => displayOne samplePlatform (some sampleKey) msg = .ok entry)
          sampleBatch shown)) :=
  ⟨by decide, by decide, by decide,
    decryptText_never_raises samplePlatform "6869".toList [] "00".toList (.cryptoKey sampleKey)
      (some sampleKey) sampleBatch (by decide)⟩

/-! # Public keys in hexadecimal -/

set_option maxRecDepth 100000 in
theorem hexByte_check : ∀ b : Nat, b < 256 →
    (padStart2 (toString16 (b : Int))).length = 2 ∧
    (padStart2 (toString16 (b : Int))).all (fun c => decide (c ∈ lowerHexDigits)) = true ∧
    (padStart2 (toString16 (b : Int))).all (fun c => !isLineTerminator c) = true ∧
    toUint8 (parseInt16 (padStart2 (toString16 (b : Int)))) = b := by
  decide

theorem matchPairs_pair (c1 c2 : Char) (rest : JSString) (h1 : isLineTerminator c1 = false)
    (h2 : isLineTerminator c2 = false) :
    matchPairs (c1 :: c2 :: rest) = [c1, c2] :: matchPairs rest := by
  simp [matchPairs, h1, h2]

theorem arrayToHex_cons (b : Nat) (bytes : List Nat) :
    arrayToHex (b :: bytes) = padStart2 (toString16 (b : Int)) ++ arrayToHex bytes := by
  unfold arrayToHex
  rw [List.map_cons, join_nil_cons]

theorem matchPairs_arrayToHex (bytes : List Nat) (hb : ∀ b ∈ bytes, b < 256) :
    (matchPairs (arrayToHex bytes)).map (fun g => toUint8 (parseInt16 g)) = bytes ∧
    (matchPairs (arrayToHex bytes)).length = bytes.length ∧
    (arrayToHex bytes).length = 2 * bytes.length ∧
    ∀ c ∈ arrayToHex bytes, c ∈ lowerHexDigits := by
  induction bytes with
  | nil => simp [arrayToHex, join, matchPairs]
  | cons b rest ih =>
    obtain ⟨i1, i2, i3, i4⟩ := ih (fun x hx => hb x (List.mem_cons_of_mem _ hx))
    obtain ⟨hl, hhex, hterm, hval⟩ := hexByte_check b (hb b (List.mem_cons_self _ _))
    rw [arrayToHex_cons]
    generalize padStart2 (toString16 (b : Int)) = h at hl hhex hterm hval
    match h, hl with
    | [c1, c2], _ =>
      simp only [List.all_cons, List.all_nil, Bool.and_true, Bool.and_eq_true,
        Bool.not_eq_true', decide_eq_true_eq] at hhex hterm
      have e : [c1, c2] ++ arrayToHex rest = c1 :: c2 :: arrayToHex rest := rfl
      rw [e, matchPairs_pair c1 c2 _ hterm.1 hterm.2]
      refine ⟨by simp [hval, i1], by simp [i2], by simp [i3]; omega, ?_⟩
      intro c hc
      simp only [List.mem_cons] at hc
      rcases hc with rfl | rfl | hc
      · exact hhex.1
      · exact hhex.2
      · exact i4 c hc

/-- C18: for every non-empty sequence of bytes, the hex serialization of
`arrayToHex` (which is the one of `exportPublicKey`) gives two lower-case
hexadecimal digits for each byte, and the hex parsing of `importPublicKey` and
`decryptText` gives the bytes back. -/
theorem hex_roundtrip (bytes : List Nat) (hne : bytes ≠ []) (hb : ∀ b ∈ bytes, b < 256) :
    (arrayToHex bytes).length = 2 * bytes.length ∧
      (∀ c ∈ arrayToHex bytes, c ∈ lowerHexDigits) ∧
      hexToBytes (arrayToHex bytes) = .ok bytes ∧
      (∀ (G : Type) (exportKey : G → List Nat) (publicKey : G),
        exportPublicKey exportKey publicKey = arrayToHex (exportKey publicKey)) := by
  obtain ⟨h1, h2, h3, h4⟩ := matchPairs_arrayToHex bytes hb
  refine ⟨h3, h4, ?_, fun _ _ _ => rfl⟩
  unfold hexToBytes
  cases hm : matchPairs (arrayToHex bytes) with
  | nil =>
    rw [hm] at h2
    cases bytes with
    | nil => exact absurd rfl hne
    | cons b rest => simp at h2
  | cons g gs =>
    rw [hm] at h1
    simp only [h1]

/-- C18, an instance: the bytes 4, 171 and 0 are written `04ab00` and read
back. -/
theorem hex_roundtrip_witness :
    [4, 171, 0] ≠ [] ∧ (∀ b ∈ [4, 171, 0], b < 256) ∧
      arrayToHex [4, 171, 0] = "04ab00".toList ∧
      ((arrayToHex [4, 171, 0]).length = 2 * [4, 171, 0].length ∧
        (∀ c ∈ arrayToHex [4, 171, 0], c ∈ lowerHexDigits) ∧
        hexToBytes (arrayToHex [4, 171, 0]) = .ok [4, 171, 0] ∧
        (∀ (G : Type) (exportKey : G → List Nat) (publicKey : G),
          exportPublicKey exportKey publicKey = arrayToHex (exportKey publicKey))) :=
  ⟨by decide, by decide, by decide, hex_roundtrip [4, 171, 0] (by decide) (by decide)⟩

/-! # The dedup step and timestamps -/

theorem dedupStep_set_mono (displayed : List Timestamp) (batch : List ReceivedMessage)
    (t : Timestamp) (h : t ∈ displayed) : t ∈ (dedupStep displayed batch).1 := by
  rw [dedupStep_eq, mem_trackDisplayed]
  exact Or.inl h

theorem dedupStep_set_falsy (displayed : List Timestamp) (batch : List ReceivedMessage)
    (t : Timestamp) (ht : t.truthy = false) (h : t ∈ (dedupStep displayed batch).1) :
    t ∈ displayed := by
  rw [dedupStep_eq, mem_trackDisplayed] at h
  rcases h with h | ⟨m, _, htr, rfl⟩
  · exact h
  · rw [ht] at htr; cases htr

theorem dedupRuns_spec (batches : List (List ReceivedMessage)) (displayed : List Timestamp) :
    (∀ t ∈ displayed, t ∈ dedupRuns displayed batches) ∧
    (∀ t, t.truthy = false → t ∈ dedupRuns displayed batches → t ∈ displayed) := by
  induction batches generalizing displayed with
  | nil => exact ⟨fun t h => h, fun t _ h => h⟩
  | cons b rest ih =>
    obtain ⟨h1, h2⟩ := ih (dedupStep displayed b).1
    have e : dedupRuns displayed (b :: rest) = dedupRuns (dedupStep displayed b).1 rest := rfl
    rw [e]
    exact ⟨fun t h => h1 t (dedupStep_set_mono displayed b t h),
      fun t ht h => dedupStep_set_falsy displayed b t ht (h2 t ht h)⟩

/-- C19: whatever the set of displayed identifiers and the batch, a message
whose timestamp is missing or zero is not passed on and is not recorded; a
message that is passed on has a truthy (so non-zero) timestamp, which is in
the set afterwards; the set loses no identifier; and after any number of
fetches the set holds a missing or zero identifier only if it held it
before. -/
theorem dedupStep_timestamps (displayed : List Timestamp) (batch : List ReceivedMessage)
    (batches : List (List ReceivedMessage)) :
    Timestamp.absent.truthy = false ∧ (Timestamp.num 0).truthy = false ∧
      (∀ m ∈ batch, m.timestamp.truthy = false → m ∉ (dedupStep displayed batch).2) ∧
      (∀ t, t.truthy = false → t ∈ (dedupStep displayed batch).1 → t ∈ displayed) ∧
      (∀ m ∈ (dedupStep displayed batch).2,
        m.timestamp.truthy = true ∧ m.timestamp ≠ .num 0 ∧ m.timestamp ≠ .absent ∧
          m.timestamp ∈ (dedupStep displayed batch).1) ∧
      (∀ t ∈ displayed, t ∈ (dedupStep displayed batch).1) ∧
      (∀ t ∈ displayed, t ∈ dedupRuns displayed batches) ∧
      (∀ t, t.truthy = false → t ∈ dedupRuns displayed batches → t ∈ displayed) := by
  refine ⟨rfl, rfl, ?_, dedupStep_set_falsy displayed batch, ?_,
    dedupStep_set_mono displayed batch, (dedupRuns_spec batches displayed).1,
    (dedupRuns_spec batches displayed).2⟩
  · intro m _ hf hm
    rw [dedupStep_eq] at hm
    have := ((mem_newMessagesOf _ _ _).mp hm).2.1
    rw [hf] at this
    cases this
  · intro m hm
    have hm' := hm
    rw [dedupStep_eq] at hm'
    have htr := ((mem_newMessagesOf _ _ _).mp hm').2.1
    refine ⟨htr, ?_, ?_, ?_⟩
    · intro h0; rw [h0] at htr; cases htr
    · intro h0; rw [h0] at htr; cases htr
    · rw [dedupStep_eq, mem_trackDisplayed]
      exact Or.inr ⟨m, hm', htr, rfl⟩

/-! # The waiter state machine -/

/-- C11: when the timer of a wait fires while the wait is still pending (its
resolver is the one stored) and no key has been set, the wait fails with the
timeout error, `connectToMain` reports it (`showError`, then `console.error`),
the resolver and the pending key pair are cleared, and `encryptionKey` stays
unset. -/
theorem timeout_cancels_wait {G : Type} (s : Session G) (w : Nat)
    (hresolver : s.mainKeyResolver = some w) (hpending : s.waits[w]? = some .pending)
    (hkey : s.encryptionKey = none) :
    (timeoutCallback s w).waits[w]? = some (.rejected timeoutError) ∧
      (timeoutCallback s w).mainKeyResolver = none ∧
      (timeoutCallback s w).dhKeyPairPending = none ∧
      (timeoutCallback s w).encryptionKey = none ∧
      (timeoutCallback s w).connectedMain = s.connectedMain ∧
      (timeoutCallback s w).log
        = s.log ++ [.showErrorOf "Connection failed: ".toList timeoutError,
            .consoleError timeoutError] := by
  have hlt : w < s.waits.length := by
    rcases List.getElem?_eq_some_iff.mp hpending with ⟨h, _⟩
    exact h
  simp [timeoutCallback, rejectWait, failConnect, Session.emit, hresolver, hpending, hkey, hlt]

/-- C11, an instance: the wait started in a fresh session, and its timer. -/
theorem timeout_cancels_wait_witness :
    (waitForMainPublicKey (Session.initial Int) sampleKeyPair).mainKeyResolver = some 0 ∧
      (waitForMainPublicKey (Session.initial Int) sampleKeyPair).waits[0]? = some .pending ∧
      (waitForMainPublicKey (Session.initial Int) sampleKeyPair).encryptionKey = none ∧
      (timeoutCallback (waitForMainPublicKey (Session.initial Int) sampleKeyPair) 0).waits[0]?
        = some (.rejected timeoutError) :=
  ⟨rfl, rfl, rfl,
    (timeout_cancels_wait (waitForMainPublicKey (Session.initial Int) sampleKeyPair) 0
      rfl rfl rfl).1⟩

theorem onPeerKey_no_resolver {G : Type} (steps : ExchangeSteps G) (s : Session G)
    (hex : JSString) (h : s.mainKeyResolver = none) : onPeerKey steps s hex = s := by
  unfold onPeerKey
  rw [h]
  cases s.dhKeyPairPending <;> rfl

theorem fetch_resolver {G : Type} (response : RetrieveResponse) (s : Session G) :
    (fetchAndDisplayReceivedMessages response s).mainKeyResolver = s.mainKeyResolver := by
  unfold fetchAndDisplayReceivedMessages
  split
  · rfl
  · cases response with
    | failed e => rfl
    | rateLimited => rfl
    | data messages =>
      cases messages with
      | none => rfl
      | some ms =>
        simp only [Session.emit]
        split <;> rfl

theorem timeoutCallback_resolver {G : Type} (s : Session G) (w : Nat) :
    (timeoutCallback s w).mainKeyResolver = none := by
  unfold timeoutCallback
  cases h : s.mainKeyResolver with
  | none => simp [h]
  | some r =>
    simp only [h, rejectWait, failConnect, Session.emit]
    split <;> rfl

theorem onMessage_no_resolver {G : Type} (steps : ExchangeSteps G) (response : RetrieveResponse)
    (s : Session G) (data : WsMessage) (h : s.mainKeyResolver = none) :
    (onMessage steps response s data).mainKeyResolver = none := by
  unfold onMessage
  split
  · rw [onPeerKey_no_resolver steps s _ h]; exact h
  · split
    · rw [onPeerKey_no_resolver steps s _ h]; exact h
    · split
      · split
        · rw [fetch_resolver]; exact h
        · exact h
      · exact h

theorem sessionStep_no_resolver {G : Type} (steps : ExchangeSteps G) (s : Session G)
    (e : SessionEvent G) (he : e.isConnect = false) (h : s.mainKeyResolver = none) :
    (sessionStep steps s e).mainKeyResolver = none := by
  cases e with
  | connect input => simp [SessionEvent.isConnect] at he
  | message data response => exact onMessage_no_resolver steps response s data h
  | timeout w =>
    simp only [sessionStep]
    split
    · exact timeoutCallback_resolver s w
    · exact h
  | close =>
    simp only [sessionStep, onClose, Session.setTimeout]
    split <;> exact h

theorem sessionRun_no_resolver {G : Type} (steps : ExchangeSteps G)
    (events : List (SessionEvent G)) (s : Session G)
    (he : events.all (fun e => !e.isConnect) = true) (h : s.mainKeyResolver = none) :
    (sessionRun steps s events).mainKeyResolver = none := by
  induction events generalizing s with
  | nil => exact h
  | cons e rest ih =>
    simp only [List.all_cons, Bool.and_eq_true, Bool.not_eq_true'] at he
    exact ih (sessionStep steps s e) he.2 (sessionStep_no_resolver steps s e he.1 h)

theorem onMessage_peerKey_ignored {G : Type} (steps : ExchangeSteps G)
    (response : RetrieveResponse) (s : Session G) (hex : JSString)
    (h : s.mainKeyResolver = none) :
    onMessage steps response s (receiverKeyAvailable hex) = s ∧
      onMessage steps response s (keysAvailable hex) = s := by
  constructor
  · unfold onMessage
    split
    · exact onPeerKey_no_resolver steps s _ h
    · split
      · exact onPeerKey_no_resolver steps s _ h
      · split
        · rename_i h1 h2 h3
          simp [receiverKeyAvailable] at h3
        · rfl
  · unfold onMessage
    split
    · exact onPeerKey_no_resolver steps s _ h
    · split
      · exact onPeerKey_no_resolver steps s _ h
      · split
        · rename_i h1 h2 h3
          simp [keysAvailable] at h3
        · rfl

/-- C12: after the timeout callback of a wait has run, and after any further
events that are not a new call of `connectToMain`, a notification of the key
of the main (`receiver-key-available` or `keys-available`) is ignored: the
handler leaves the whole session as it is, so it runs no key exchange, calls
no resolver and changes none of `encryptionKey`, `mainKeyResolver` and
`dhKeyPairPending`. -/
theorem late_notification_ignored {G : Type} (steps : ExchangeSteps G)
    (response : RetrieveResponse) (s : Session G) (w : Nat) (events : List (SessionEvent G))
    (hex : JSString) (hevents : events.all (fun e => !e.isConnect) = true) :
    onMessage steps response (sessionRun steps (timeoutCallback s w) events)
        (receiverKeyAvailable hex)
      = sessionRun steps (timeoutCallback s w) events ∧
    onMessage steps response (sessionRun steps (timeoutCallback s w) events) (keysAvailable hex)
      = sessionRun steps (timeoutCallback s w) events :=
  onMessage_peerKey_ignored steps response _ hex
    (sessionRun_no_resolver steps events _ hevents (timeoutCallback_resolver s w))

/-- C12, an instance: the wait of a fresh session times out, the WebSocket
closes, and then the key `03` is notified. -/
theorem late_notification_ignored_witness :
    ([SessionEvent.close] : List (SessionEvent Int)).all (fun e => !e.isConnect) = true ∧
      (onMessage sampleSteps (.data none)
          (sessionRun sampleSteps
            (timeoutCallback (waitForMainPublicKey (Session.initial Int) sampleKeyPair) 0)
            [SessionEvent.close])
          (receiverKeyAvailable "03".toList)
        = sessionRun sampleSteps
            (timeoutCallback (waitForMainPublicKey (Session.initial Int) sampleKeyPair) 0)
            [SessionEvent.close] ∧
       onMessage sampleSteps (.data none)
          (sessionRun sampleSteps
            (timeoutCallback (waitForMainPublicKey (Session.initial Int) sampleKeyPair) 0)
            [SessionEvent.close])
          (keysAvailable "03".toList)
        = sessionRun sampleSteps
            (timeoutCallback (waitForMainPublicKey (Session.initial Int) sampleKeyPair) 0)
            [SessionEvent.close]) :=
  ⟨rfl, late_notification_ignored sampleSteps (.data none)
    (waitForMainPublicKey (Session.initial Int) sampleKeyPair) 0 [SessionEvent.close]
    "03".toList rfl⟩

theorem completeKeyExchange_frame {G : Type} (steps : ExchangeSteps G) (s : Session G)
    (dhKeyPair : KeyPair G) (hex : JSString) :
    (completeKeyExchange steps s dhKeyPair hex).1.waits = s.waits ∧
      (completeKeyExchange steps s dhKeyPair hex).1.timers = s.timers ∧
      (completeKeyExchange steps s dhKeyPair hex).1.mainKeyResolver = s.mainKeyResolver ∧
      (completeKeyExchange steps s dhKeyPair hex).1.dhKeyPairPending = s.dhKeyPairPending ∧
      (completeKeyExchange steps s dhKeyPair hex).1.connectedMain = s.connectedMain ∧
      (completeKeyExchange steps s dhKeyPair hex).1.connectionCode = s.connectionCode := by
  unfold completeKeyExchange
  simp only [Session.emit]
  split
  · exact ⟨rfl, rfl, rfl, rfl, rfl, rfl⟩
  · split
    · exact ⟨rfl, rfl, rfl, rfl, rfl, rfl⟩
    · split
      · exact ⟨rfl, rfl, rfl, rfl, rfl, rfl⟩
      · split
        · exact ⟨rfl, rfl, rfl, rfl, rfl, rfl⟩
        · split <;> exact ⟨rfl, rfl, rfl, rfl, rfl, rfl⟩

theorem getElem?_append_last {α : Type} (l : List α) (a : α) :
    (l ++ [a])[l.length]? = some a := by
  simp

theorem set_append_last {α : Type} (l : List α) (a b : α) :
    (l ++ [a]).set l.length b = l ++ [b] := by
  induction l with
  | nil => rfl
  | cons x xs ih => simp [ih]

theorem singleWait_start {G : Type} (s : Session G) (dhKeyPair : KeyPair G) (h : Quiet s) :
    SingleWait s.waits (waitForMainPublicKey s dhKeyPair) := by
  refine ⟨?_, Or.inl ⟨?_, ?_, ?_, ?_⟩⟩
  · intro i hi
    unfold waitForMainPublicKey at hi
    simp only [Session.setTimeout, Session.emit] at hi
    split at hi <;>
      · simp only [List.mem_append, List.mem_singleton, TimerCallback.waitTimeout.injEq] at hi
        rcases hi with hi | hi
        · exact absurd hi (h.2 i)
        · exact hi
  · unfold waitForMainPublicKey
    simp only [Session.setTimeout, Session.emit]
    split <;> rfl
  · unfold waitForMainPublicKey
    simp only [Session.setTimeout, Session.emit]
    split <;> rfl
  · unfold waitForMainPublicKey
    simp only [Session.setTimeout, Session.emit]
    split <;> rfl
  · unfold waitForMainPublicKey
    simp only [Session.setTimeout, Session.emit]
    split <;> simp

theorem singleWait_peerKey {G : Type} (steps : ExchangeSteps G) (earlier : List PromiseState)
    (s : Session G) (hex : JSString) (h : SingleWait earlier s) :
    SingleWait earlier (onPeerKey steps s hex) := by
  obtain ⟨ht, hcase⟩ := h
  rcases hcase with ⟨hw, hr, hp, htimer⟩ | ⟨hw, hr, hp⟩
  · unfold onPeerKey
    cases hkp : s.dhKeyPairPending with
    | none => rw [hkp] at hp; cases hp
    | some kp =>
      obtain ⟨f1, f2, f3, f4, _, _⟩ := completeKeyExchange_frame steps s kp hex
      simp only [hr]
      cases hres : completeKeyExchange steps s kp hex with
      | mk s1 r =>
        rw [hres] at f1 f2 f3 f4
        simp only at f1 f2 f3 f4
        cases r with
        | error e =>
          refine ⟨?_, Or.inl ⟨?_, ?_, ?_, ?_⟩⟩
          · intro i hi; exact ht i (by simpa [Session.emit, f2] using hi)
          · simp [Session.emit, f1, hw]
          · simp [Session.emit, f3, hr]
          · simp [Session.emit, f4, hkp]
          · simp [Session.emit, f2, htimer]
        | ok u =>
          have hget : s1.waits[earlier.length]? = some .pending := by
            rw [f1, hw]; exact getElem?_append_last earlier .pending
          simp only [resolveWait, hget, finishConnect, failConnect, Session.emit]
          have hset : s1.waits.set earlier.length .resolved = earlier ++ [.resolved] := by
            rw [f1, hw]; exact set_append_last earlier _ _
          refine ⟨?_, Or.inr ⟨Or.inl ?_, ?_, ?_⟩⟩
          · intro i hi
            apply ht i
            rw [← f2]
            split at hi <;> exact hi
          · split <;> exact hset
          · split <;> rfl
          · split <;> rfl
  · rw [onPeerKey_no_resolver steps s hex hr]
    exact ⟨ht, Or.inr ⟨hw, hr, hp⟩⟩

theorem singleWait_timeout {G : Type} (earlier : List PromiseState) (s : Session G) (w : Nat)
    (hw : TimerCallback.waitTimeout w ∈ s.timers) (h : SingleWait earlier s) :
    SingleWait earlier (timeoutCallback s w) ∧
      (s.waits = earlier ++ [.pending] →
        (timeoutCallback s w).waits = earlier ++ [.rejected timeoutError]) := by
  obtain ⟨ht, hcase⟩ := h
  have hwe : w = earlier.length := ht w hw
  subst hwe
  have hsub : ∀ i, TimerCallback.waitTimeout i ∈
      s.timers.erase (TimerCallback.waitTimeout earlier.length) → i = earlier.length :=
    fun i hi => ht i (List.mem_of_mem_erase hi)
  rcases hcase with ⟨hwaits, hr, hp, htimer⟩ | ⟨hwaits, hr, hp⟩
  · have hget : s.waits[earlier.length]? = some .pending := by
      rw [hwaits]; exact getElem?_append_last earlier .pending
    have hset : s.waits.set earlier.length (.rejected timeoutError)
        = earlier ++ [.rejected timeoutError] := by
      rw [hwaits]; exact set_append_last earlier _ _
    simp only [timeoutCallback, hr, rejectWait, hget, failConnect, Session.emit]
    exact ⟨⟨hsub, Or.inr ⟨Or.inr hset, rfl, rfl⟩⟩, fun _ => hset⟩
  · simp only [timeoutCallback, hr]
    refine ⟨⟨hsub, Or.inr ⟨hwaits, rfl, hp⟩⟩, ?_⟩
    intro hpend
    rcases hwaits with h1 | h1 <;>
      · rw [h1] at hpend
        have := List.append_cancel_left hpend
        simp at this

theorem singleWait_step {G : Type} (steps : ExchangeSteps G) (earlier : List PromiseState)
    (s : Session G) (e : WaiterEvent G) (he : e.isStart = false) (h : SingleWait earlier s) :
    SingleWait earlier (waiterStep steps s e) := by
  cases e with
  | start kp => simp [WaiterEvent.isStart] at he
  | peerKey hex => exact singleWait_peerKey steps earlier s hex h
  | timeout w =>
    simp only [waiterStep]
    split
    · rename_i hw
      exact (singleWait_timeout earlier s w hw h).1
    · exact h

theorem singleWait_run {G : Type} (steps : ExchangeSteps G) (earlier : List PromiseState)
    (events : List (WaiterEvent G)) (s : Session G)
    (he : events.all (fun e => !e.isStart) = true) (h : SingleWait earlier s) :
    SingleWait earlier (waiterRun steps s events) := by
  induction events generalizing s with
  | nil => exact h
  | cons e rest ih =>
    simp only [List.all_cons, Bool.and_eq_true, Bool.not_eq_true'] at he
    exact ih (waiterStep steps s e) he.2 (singleWait_step steps earlier s e he.1 h)

theorem count_pending_zero (earlier : List PromiseState) (h : ∀ st ∈ earlier, st ≠ .pending) :
    earlier.count .pending = 0 :=
  List.count_eq_zero.mpr (fun hm => h _ hm rfl)

/-- C13 (amended): when a wait is started in a session in which no wait is
unsettled and no timer of a wait is set, then after any events that do not
start another wait at most one wait is unsettled, and it is that wait; while
it is pending its timer is set, and the firing of this timer settles it with
the timeout error; and at each moment it is pending, resolved by a
notification, or rejected by its timeout. -/
theorem single_wait_settles {G : Type} (steps : ExchangeSteps G) (s : Session G)
    (dhKeyPair : KeyPair G) (events : List (WaiterEvent G)) (hquiet : Quiet s)
    (hevents : events.all (fun e => !e.isStart) = true) :
    unsettled (afterStart steps s dhKeyPair events) ≤ 1 ∧
      (∀ i, (afterStart steps s dhKeyPair events).waits[i]? = some .pending →
        i = s.waits.length) ∧
      ((afterStart steps s dhKeyPair events).waits[s.waits.length]? = some .pending →
        TimerCallback.waitTimeout s.waits.length
            ∈ (afterStart steps s dhKeyPair events).timers ∧
        (waiterStep steps (afterStart steps s dhKeyPair events)
            (.timeout s.waits.length)).waits[s.waits.length]?
          = some (.rejected timeoutError)) ∧
      ((afterStart steps s dhKeyPair events).waits[s.waits.length]? = some .pending ∨
        (afterStart steps s dhKeyPair events).waits[s.waits.length]? = some .resolved ∨
        (afterStart steps s dhKeyPair events).waits[s.waits.length]?
          = some (.rejected timeoutError)) := by
  have hinv : SingleWait s.waits (afterStart steps s dhKeyPair events) :=
    singleWait_run steps s.waits events _ hevents (singleWait_start s dhKeyPair hquiet)
  generalize afterStart steps s dhKeyPair events = t at hinv
  have hzero := count_pending_zero s.waits hquiet.1
  obtain ⟨ht, hcase⟩ := hinv
  have hshape : ∃ st, t.waits = s.waits ++ [st] := by
    rcases hcase with ⟨h, _⟩ | ⟨h | h, _⟩ <;> exact ⟨_, h⟩
  obtain ⟨st, hst⟩ := hshape
  refine ⟨?_, ?_, ?_, ?_⟩
  · unfold unsettled
    rw [hst, List.count_append, hzero]
    simp only [Nat.zero_add]
    exact (List.count_le_length _ _).trans (by simp)
  · intro i hi
    rw [hst] at hi
    by_cases hlt : i < s.waits.length
    · rw [List.getElem?_append_left hlt] at hi
      have hmem : PromiseState.pending ∈ s.waits := by
        rcases List.getElem?_eq_some_iff.mp hi with ⟨h1, h2⟩
        exact h2 ▸ List.getElem_mem _
      exact absurd rfl (hquiet.1 _ hmem)
    · by_cases heq : i = s.waits.length
      · exact heq
      · have hlen : (s.waits ++ [st]).length ≤ i := by
          simp only [List.length_append, List.length_singleton]; omega
        rw [List.getElem?_eq_none hlen] at hi
        cases hi
  · intro hpend
    rcases hcase with ⟨hw, hr, hp, htimer⟩ | ⟨hw, hr, hp⟩
    · refine ⟨htimer, ?_⟩
      simp only [waiterStep, htimer, if_true]
      rw [(singleWait_timeout s.waits t s.waits.length htimer
        ⟨ht, Or.inl ⟨hw, hr, hp, htimer⟩⟩).2 hw]
      exact getElem?_append_last _ _
    · rcases hw with h1 | h1 <;>
        · rw [h1, getElem?_append_last] at hpend
          cases hpend
  · rcases hcase with ⟨hw, _⟩ | ⟨hw | hw, _⟩
    · left; rw [hw]; exact getElem?_append_last _ _
    · right; left; rw [hw]; exact getElem?_append_last _ _
    · right; right; rw [hw]; exact getElem?_append_last _ _

theorem quiet_initial (G : Type) : Quiet (Session.initial G) := by
  constructor
  · intro st hst
    simp [Session.initial] at hst
  · intro w hw
    simp [Session.initial] at hw

/-- C13, an instance: in a fresh session a wait is started, a notification
brings the key `00`, which cannot be imported, and the timer fires. -/
theorem single_wait_settles_witness :
    Quiet (Session.initial Int) ∧
      ([.peerKey "00".toList, .timeout 0] : List (WaiterEvent Int)).all
        (fun e => !e.isStart) = true ∧
      unsettled (afterStart sampleSteps (Session.initial Int) sampleKeyPair
        [.peerKey "00".toList, .timeout 0]) ≤ 1 ∧
      (afterStart sampleSteps (Session.initial Int) sampleKeyPair
        [.peerKey "00".toList, .timeout 0]).waits = [.rejected timeoutError] :=
  ⟨quiet_initial Int, rfl,
    (single_wait_settles sampleSteps (Session.initial Int) sampleKeyPair
      [.peerKey "00".toList, .timeout 0] (quiet_initial Int) rfl).1, by decide⟩

/-- C13 as stated fails: two waits started one after the other in a fresh
session are both unsettled; and after the timers of both have fired the first
wait is rejected and the second is still pending, with no timer left and no
resolver stored. -/
theorem two_waits_unsettled :
    unsettled (waiterRun sampleSteps (Session.initial Int)
        [.start sampleKeyPair, .start sampleKeyPair]) = 2 ∧
      (waiterRun sampleSteps (Session.initial Int)
        [.start sampleKeyPair, .start sampleKeyPair, .timeout 0, .timeout 1]).waits
        = [.rejected timeoutError, .pending] ∧
      (waiterRun sampleSteps (Session.initial Int)
        [.start sampleKeyPair, .start sampleKeyPair, .timeout 0, .timeout 1]).timers = [] ∧
      (waiterRun sampleSteps (Session.initial Int)
        [.start sampleKeyPair, .start sampleKeyPair, .timeout 0, .timeout 1]).mainKeyResolver
        = none := by
  decide
/-! # The session key -/

/-- C14: while `encryptionKey` is null, `sendMessage` only reports an error:
it encrypts nothing, calls no endpoint and leaves `sentMessages` and
`selectedFiles` as they are; `fetchAndDisplayReceivedMessages` does nothing,
so it does not call the retrieval endpoint; and a `message-available`
notification does nothing, so it triggers no fetch. -/
theorem no_key_no_payload {G K : Type} (steps : ExchangeSteps G) (p : Platform K)
    (input : SendInput) (response : RetrieveResponse) (s : Session G)
    (hkey : s.encryptionKey = none) :
    (∃ message, sendMessage p input s = s.emit (.showError message)) ∧
      (sendMessage p input s).sentMessages = s.sentMessages ∧
      (sendMessage p input s).selectedFiles = s.selectedFiles ∧
      (∀ e ∈ (sendMessage p input s).log, e ∈ s.log ∨ e.isPayload = false) ∧
      fetchAndDisplayReceivedMessages response s = s ∧
      onMessage steps response s messageAvailable = s := by
  have hsend : ∃ message, sendMessage p input s = s.emit (.showError message) := by
    unfold sendMessage
    by_cases hc : s.connectedMain = true
    · refine ⟨
        "Secure connection not established. Key exchange may have failed. Please reconnect.".toList,
        ?_⟩
      simp only [hc, Bool.not_true, Bool.false_eq_true, if_false, hkey]
    · refine ⟨"Not connected to main".toList, ?_⟩
      simp [hc]
  obtain ⟨message, hm⟩ := hsend
  refine ⟨⟨message, hm⟩, by rw [hm]; rfl, by rw [hm]; rfl, ?_, ?_, ?_⟩
  · intro e he
    rw [hm] at he
    simp only [Session.emit, List.mem_append, List.mem_singleton] at he
    rcases he with he | he
    · exact Or.inl he
    · right; rw [he]; rfl
  · unfold fetchAndDisplayReceivedMessages
    simp [hkey]
  · unfold onMessage
    simp [messageAvailable, truthy, hkey]

/-- C14, an instance: a fresh session. -/
theorem no_key_no_payload_witness :
    (Session.initial Int).encryptionKey = none ∧
      (sendMessage samplePlatform sampleSend (Session.initial Int)).log
        = [.showError "Not connected to main".toList] ∧
      (∃ message, sendMessage samplePlatform sampleSend (Session.initial Int)
        = (Session.initial Int).emit (.showError message)) :=
  ⟨rfl, by decide,
    (no_key_no_payload sampleSteps samplePlatform sampleSend (.data none) (Session.initial Int)
      rfl).1⟩

/-- C15 fails on the code.  A join without the key of the main, then a
notification whose key `00` cannot be imported, then the timer: the handler
of the notification only logs the exception and the wait stays pending, and
60 seconds after the join `connectToMain` reports the timeout error, not a
failed key exchange.  When the same key comes in the join response,
`connectToMain` reports the exception of the import. -/
theorem key_exchange_failure_reported_as_timeout :
    (sessionRun sampleSteps (Session.initial Int)
        [.connect joinWithoutKey,
          .message (receiverKeyAvailable "00".toList) (.data none)]).waits = [.pending] ∧
      (sessionRun sampleSteps (Session.initial Int)
        [.connect joinWithoutKey, .message (receiverKeyAvailable "00".toList) (.data none),
          .timeout 0]).log
        = [.showError [], .setupWebSocket, .setTimeout (.waitTimeout 0) 60000,
            .keyExchange "00".toList, .consoleError .operationError,
            .consoleError .operationError,
            .showErrorOf "Connection failed: ".toList timeoutError,
            .consoleError timeoutError] ∧
      (sessionRun sampleSteps (Session.initial Int)
        [.connect { joinWithoutKey with
            response := .ok (some "AB12CD34".toList) (some "token".toList)
              (some "00".toList) }]).log
        = [.showError [], .keyExchange "00".toList, .consoleError .operationError,
            .showErrorOf "Connection failed: ".toList .operationError,
            .consoleError .operationError] := by
  decide

theorem keyInvariant_of_eq {G : Type} (steps : ExchangeSteps G) (s t : Session G)
    (hk : t.encryptionKey = s.encryptionKey) (hc : t.connectedMain = s.connectedMain)
    (h : KeyInvariant steps s) : KeyInvariant steps t := by
  unfold KeyInvariant at *
  rw [hk, hc]
  exact h

theorem completeKeyExchange_key {G : Type} (steps : ExchangeSteps G) (s : Session G)
    (dhKeyPair : KeyPair G) (hex : JSString) :
    ((completeKeyExchange steps s dhKeyPair hex).1.encryptionKey = s.encryptionKey ∧
        (∃ e, (completeKeyExchange steps s dhKeyPair hex).2 = .error e) ∧
        CryptoFails steps dhKeyPair.privateKey hex) ∨
      (∃ key, (completeKeyExchange steps s dhKeyPair hex).1.encryptionKey = some key ∧
        DerivedKey steps key) := by
  cases h1 : importPublicKey steps hex with
  | error e =>
    left
    refine ⟨?_, ⟨e, ?_⟩, ?_⟩
    · simp only [completeKeyExchange, Session.emit, h1]
    · simp only [completeKeyExchange, Session.emit, h1]
    · intro pub secret key hp
      rw [h1] at hp; cases hp
  | ok pub =>
    cases h2 : steps.deriveBits dhKeyPair.privateKey pub with
    | error e =>
      left
      refine ⟨?_, ⟨e, ?_⟩, ?_⟩
      · simp only [completeKeyExchange, Session.emit, h1, h2]
      · simp only [completeKeyExchange, Session.emit, h1, h2]
      · intro pub' secret key hp hs
        rw [h1] at hp
        injection hp with hp
        subst hp
        rw [h2] at hs; cases hs
    | ok secret =>
      cases h3 : steps.hkdf secret with
      | error e =>
        left
        refine ⟨?_, ⟨e, ?_⟩, ?_⟩
        · simp only [completeKeyExchange, Session.emit, h1, h2, h3]
        · simp only [completeKeyExchange, Session.emit, h1, h2, h3]
        · intro pub' secret' key hp hs hk
          rw [h1] at hp
          injection hp with hp
          subst hp
          rw [h2] at hs
          injection hs with hs
          subst hs
          rw [h3] at hk; cases hk
      | ok key =>
        right
        refine ⟨key, ?_, dhKeyPair.privateKey, hex, pub, secret, h1, h2, h3⟩
        simp only [completeKeyExchange, Session.emit, h1, h2, h3]
        split
        · rfl
        · split <;> rfl

theorem keyInvariant_completeKeyExchange {G : Type} (steps : ExchangeSteps G) (s : Session G)
    (dhKeyPair : KeyPair G) (hex : JSString) (h : KeyInvariant steps s) :
    KeyInvariant steps (completeKeyExchange steps s dhKeyPair hex).1 := by
  have hc := (completeKeyExchange_frame steps s dhKeyPair hex).2.2.2.2.1
  rcases completeKeyExchange_key steps s dhKeyPair hex with ⟨hk, _, _⟩ | ⟨key, hk, hd⟩
  · exact keyInvariant_of_eq steps s _ hk hc h
  · constructor
    · intro k hk'
      rw [hk] at hk'
      injection hk' with hk'
      exact hk' ▸ hd
    · intro _
      rw [hk]; rfl

theorem finishConnect_fields {G : Type} (s : Session G) :
    (finishConnect s).encryptionKey = s.encryptionKey ∧
      ((finishConnect s).connectedMain = true →
        s.connectedMain = true ∨ s.encryptionKey.isSome = true) := by
  unfold finishConnect
  split
  · exact ⟨rfl, fun h => Or.inl h⟩
  · rename_i key hk
    exact ⟨rfl, fun _ => Or.inr (by rw [hk]; rfl)⟩

theorem keyInvariant_finishConnect {G : Type} (steps : ExchangeSteps G) (s : Session G)
    (h : KeyInvariant steps s) : KeyInvariant steps (finishConnect s) := by
  obtain ⟨hk, hc⟩ := finishConnect_fields s
  constructor
  · intro k hk'
    rw [hk] at hk'
    exact h.1 k hk'
  · intro hcon
    rw [hk]
    rcases hc hcon with h1 | h1
    · exact h.2 h1
    · exact h1

theorem keyInvariant_resolveWait {G : Type} (steps : ExchangeSteps G) (s : Session G) (w : Nat)
    (h : KeyInvariant steps s) : KeyInvariant steps (resolveWait s w) := by
  unfold resolveWait
  split
  · exact keyInvariant_finishConnect steps _ (keyInvariant_of_eq steps s _ rfl rfl h)
  · exact h

theorem keyInvariant_rejectWait {G : Type} (steps : ExchangeSteps G) (s : Session G) (w : Nat)
    (e : JSError) (h : KeyInvariant steps s) : KeyInvariant steps (rejectWait s w e) := by
  unfold rejectWait
  split
  · exact keyInvariant_of_eq steps s _ rfl rfl h
  · exact h

theorem keyInvariant_onPeerKey {G : Type} (steps : ExchangeSteps G) (s : Session G)
    (hex : JSString) (h : KeyInvariant steps s) : KeyInvariant steps (onPeerKey steps s hex) := by
  unfold onPeerKey
  split
  · rename_i kp w _ _
    have hi := keyInvariant_completeKeyExchange steps s kp hex h
    cases hres : completeKeyExchange steps s kp hex with
    | mk s1 r =>
      rw [hres] at hi
      cases r with
      | error e => exact keyInvariant_of_eq steps s1 _ rfl rfl hi
      | ok u =>
        exact keyInvariant_resolveWait steps _ w (keyInvariant_of_eq steps s1 _ rfl rfl hi)
  · exact h

theorem fetch_key {G : Type} (response : RetrieveResponse) (s : Session G) :
    (fetchAndDisplayReceivedMessages response s).encryptionKey = s.encryptionKey ∧
      (fetchAndDisplayReceivedMessages response s).connectedMain = s.connectedMain := by
  unfold fetchAndDisplayReceivedMessages
  split
  · exact ⟨rfl, rfl⟩
  · cases response with
    | failed e => exact ⟨rfl, rfl⟩
    | rateLimited => exact ⟨rfl, rfl⟩
    | data messages =>
      cases messages with
      | none => exact ⟨rfl, rfl⟩
      | some ms =>
        simp only [Session.emit]
        split <;> exact ⟨rfl, rfl⟩

theorem keyInvariant_onMessage {G : Type} (steps : ExchangeSteps G)
    (response : RetrieveResponse) (s : Session G) (data : WsMessage)
    (h : KeyInvariant steps s) : KeyInvariant steps (onMessage steps response s data) := by
  unfold onMessage
  split
  · exact keyInvariant_onPeerKey steps s _ h
  · split
    · exact keyInvariant_onPeerKey steps s _ h
    · split
      · split
        · exact keyInvariant_of_eq steps s _ (fetch_key response s).1 (fetch_key response s).2 h
        · exact h
      · exact h

theorem keyInvariant_timeoutCallback {G : Type} (steps : ExchangeSteps G) (s : Session G)
    (w : Nat) (h : KeyInvariant steps s) : KeyInvariant steps (timeoutCallback s w) := by
  unfold timeoutCallback
  simp only
  split
  · exact keyInvariant_rejectWait steps _ w _ (keyInvariant_of_eq steps s _ rfl rfl h)
  · exact keyInvariant_of_eq steps s _ rfl rfl h

theorem keyInvariant_waitForMainPublicKey {G : Type} (steps : ExchangeSteps G) (s : Session G)
    (dhKeyPair : KeyPair G) (h : KeyInvariant steps s) :
    KeyInvariant steps (waitForMainPublicKey s dhKeyPair) := by
  unfold waitForMainPublicKey
  simp only [Session.setTimeout, Session.emit]
  split <;> exact keyInvariant_of_eq steps s _ rfl rfl h

theorem keyInvariant_completeKeyExchange_eq {G : Type} (steps : ExchangeSteps G)
    (s s2 : Session G) (dhKeyPair : KeyPair G) (hex : JSString) (r : Except JSError Unit)
    (heq : completeKeyExchange steps s dhKeyPair hex = (s2, r)) (h : KeyInvariant steps s) :
    KeyInvariant steps s2 := by
  have hi := keyInvariant_completeKeyExchange steps s dhKeyPair hex h
  rw [heq] at hi
  exact hi

theorem keyInvariant_connectToMain {G : Type} (steps : ExchangeSteps G) (input : ConnectInput G)
    (s : Session G) (h : KeyInvariant steps s) :
    KeyInvariant steps (connectToMain steps input s) := by
  unfold connectToMain
  simp only
  split
  · exact keyInvariant_of_eq steps s _ rfl rfl h
  · split
    · exact keyInvariant_of_eq steps s _ rfl rfl h
    · split
      · exact keyInvariant_of_eq steps s _ rfl rfl h
      · split
        · exact keyInvariant_of_eq steps s _ rfl rfl h
        · exact keyInvariant_of_eq steps s _ rfl rfl h
        · split
          · exact keyInvariant_of_eq steps s _ rfl rfl h
          · split <;> exact keyInvariant_of_eq steps s _ rfl rfl h
        · split
          · split
            · rename_i heq
              have hs2 := keyInvariant_completeKeyExchange_eq steps _ _ _ _ _ heq
                (keyInvariant_of_eq steps s _ rfl rfl h)
              exact keyInvariant_of_eq steps _ _ rfl rfl hs2
            · rename_i heq
              have hs2 := keyInvariant_completeKeyExchange_eq steps _ _ _ _ _ heq
                (keyInvariant_of_eq steps s _ rfl rfl h)
              exact keyInvariant_finishConnect steps _ hs2
          · exact keyInvariant_waitForMainPublicKey steps _ _
              (keyInvariant_of_eq steps s _ rfl rfl h)

theorem keyInvariant_step {G : Type} (steps : ExchangeSteps G) (s : Session G)
    (e : SessionEvent G) (h : KeyInvariant steps s) :
    KeyInvariant steps (sessionStep steps s e) := by
  cases e with
  | connect input => exact keyInvariant_connectToMain steps input s h
  | message data response => exact keyInvariant_onMessage steps response s data h
  | timeout w =>
    simp only [sessionStep]
    split
    · exact keyInvariant_timeoutCallback steps s w h
    · exact h
  | close =>
    simp only [sessionStep, onClose, Session.setTimeout]
    split <;> exact keyInvariant_of_eq steps s _ rfl rfl h

theorem keyInvariant_run {G : Type} (steps : ExchangeSteps G) (events : List (SessionEvent G))
    (s : Session G) (h : KeyInvariant steps s) :
    KeyInvariant steps (sessionRun steps s events) := by
  induction events generalizing s with
  | nil => exact h
  | cons e rest ih => exact ih (sessionStep steps s e) (keyInvariant_step steps s e h)

theorem keyInvariant_initial {G : Type} (steps : ExchangeSteps G) :
    KeyInvariant steps (Session.initial G) := by
  constructor
  · intro key hk
    simp [Session.initial] at hk
  · intro hc
    simp [Session.initial] at hc

theorem completeKeyExchange_fails {G : Type} (steps : ExchangeSteps G) (s : Session G)
    (dhKeyPair : KeyPair G) (hex : JSString) (hfail : CryptoFails steps dhKeyPair.privateKey hex) :
    ∃ e, completeKeyExchange steps s dhKeyPair hex
      = ((s.emit (.keyExchange hex)).emit (.consoleError e), .error e) := by
  cases h1 : importPublicKey steps hex with
  | error e => exact ⟨e, by simp only [completeKeyExchange, h1]⟩
  | ok pub =>
    cases h2 : steps.deriveBits dhKeyPair.privateKey pub with
    | error e => exact ⟨e, by simp only [completeKeyExchange, h1, h2]⟩
    | ok secret =>
      cases h3 : steps.hkdf secret with
      | error e => exact ⟨e, by simp only [completeKeyExchange, h1, h2, h3]⟩
      | ok key => exact absurd h3 (hfail pub secret key h1 h2)

theorem connectToMain_cryptoFails {G : Type} (steps : ExchangeSteps G) (input : ConnectInput G)
    (s : Session G) (dhKeyPair : KeyPair G) (code wsToken : Option JSString) (hex : JSString)
    (hkp : input.dhKeyPair = .ok dhKeyPair) (hresp : input.response = .ok code wsToken (some hex))
    (hfail : CryptoFails steps dhKeyPair.privateKey hex) :
    (connectToMain steps input s).encryptionKey = s.encryptionKey ∧
      (connectToMain steps input s).connectedMain = s.connectedMain := by
  unfold connectToMain
  simp only [hkp, hresp]
  split
  · exact ⟨rfl, rfl⟩
  · split
    · exact ⟨rfl, rfl⟩
    · split
      · obtain ⟨e, he⟩ := completeKeyExchange_fails steps
          ({ s.emit (.showError []) with connectionCode := code, wsToken := wsToken })
          dhKeyPair hex hfail
        simp only [Option.getD, he]
        exact ⟨rfl, rfl⟩
      · unfold waitForMainPublicKey
        simp only [Session.setTimeout, Session.emit]
        split <;> exact ⟨rfl, rfl⟩

theorem cryptoFails_sample : CryptoFails sampleSteps 2 "00".toList := by
  intro pub secret key hp
  have h : importPublicKey sampleSteps "00".toList = .error .operationError := by decide
  rw [h] at hp
  cases hp

/-- C16 fails on the code.  A first attempt whose key is derived and whose
fingerprint then fails (the fetch of the phrase wordlist fails) ends in an
error with `encryptionKey` set.  A retry after a successful attempt whose key
`00` cannot be imported, and a retry answered with status 409, end in an error
with the key of the earlier attempt in `encryptionKey` and `connectedMain`
still true. -/
theorem failed_attempt_keeps_key :
    ((sessionRun noWordlistSteps (Session.initial Int) [.connect joinWithKey]).encryptionKey
        = some [6] ∧
      (sessionRun noWordlistSteps (Session.initial Int) [.connect joinWithKey]).connectedMain
        = false ∧
      (sessionRun noWordlistSteps (Session.initial Int) [.connect joinWithKey]).log
        = [.showError [], .keyExchange "03".toList,
            .consoleError (.error "Failed to fetch".toList),
            .showErrorOf "Connection failed: ".toList (.error "Failed to fetch".toList),
            .consoleError (.error "Failed to fetch".toList)]) ∧
      ((sessionRun sampleSteps (Session.initial Int)
          [.connect joinWithKey, .connect joinWithBadKey]).encryptionKey = some [6] ∧
        (sessionRun sampleSteps (Session.initial Int)
          [.connect joinWithKey, .connect joinWithBadKey]).connectedMain = true ∧
        (sessionRun sampleSteps (Session.initial Int)
          [.connect joinWithKey, .connect joinWithBadKey]).log
          = [.showError [], .keyExchange "03".toList,
              .fingerprint "alpha alpha alpha".toList,
              .showError [], .keyExchange "00".toList, .consoleError .operationError,
              .showErrorOf "Connection failed: ".toList .operationError,
              .consoleError .operationError]) ∧
      ((sessionRun sampleSteps (Session.initial Int)
          [.connect joinWithKey, .connect joinConflict]).encryptionKey = some [6] ∧
        (sessionRun sampleSteps (Session.initial Int)
          [.connect joinWithKey, .connect joinConflict]).connectedMain = true) := by
  decide

/-- C16 (amended).  In every state the session reaches from its initial state,
`connectedMain` is true only when `encryptionKey` holds a key that a
successful import, ECDH and HKDF produced; and a call of `connectToMain`
whose join response has a key of the main for which the import, the ECDH or
the HKDF fails leaves `encryptionKey` and `connectedMain` as they were before
the call: unset and false on a first attempt, the values of the earlier
attempt on a retry. -/
theorem session_key_invariant {G : Type} (steps : ExchangeSteps G)
    (events : List (SessionEvent G)) :
    KeyInvariant steps (sessionRun steps (Session.initial G) events) ∧
      (∀ (input : ConnectInput G) (dhKeyPair : KeyPair G) (code wsToken : Option JSString)
          (hex : JSString),
        input.dhKeyPair = .ok dhKeyPair → input.response = .ok code wsToken (some hex) →
        CryptoFails steps dhKeyPair.privateKey hex →
        (connectToMain steps input (sessionRun steps (Session.initial G) events)).encryptionKey
            = (sessionRun steps (Session.initial G) events).encryptionKey ∧
          (connectToMain steps input (sessionRun steps (Session.initial G) events)).connectedMain
            = (sessionRun steps (Session.initial G) events).connectedMain) ∧
      (∀ (input : ConnectInput G) (dhKeyPair : KeyPair G) (code wsToken : Option JSString)
          (hex : JSString),
        input.dhKeyPair = .ok dhKeyPair → input.response = .ok code wsToken (some hex) →
        CryptoFails steps dhKeyPair.privateKey hex →
        (connectToMain steps input (Session.initial G)).encryptionKey = none ∧
          (connectToMain steps input (Session.initial G)).connectedMain = false) := by
  refine ⟨keyInvariant_run steps events _ (keyInvariant_initial steps), ?_, ?_⟩
  · intro input dhKeyPair code wsToken hex hkp hresp hfail
    exact connectToMain_cryptoFails steps input _ dhKeyPair code wsToken hex hkp hresp hfail
  · intro input dhKeyPair code wsToken hex hkp hresp hfail
    exact connectToMain_cryptoFails steps input _ dhKeyPair code wsToken hex hkp hresp hfail

theorem session_key_invariant_witness :
    KeyInvariant sampleSteps
        (sessionRun sampleSteps (Session.initial Int) [.connect joinWithKey]) ∧
      (sessionRun sampleSteps (Session.initial Int) [.connect joinWithKey]).connectedMain
        = true ∧
      (connectToMain sampleSteps joinWithBadKey
          (sessionRun sampleSteps (Session.initial Int) [.connect joinWithKey])).encryptionKey
        = (sessionRun sampleSteps (Session.initial Int) [.connect joinWithKey]).encryptionKey ∧
      (connectToMain sampleSteps joinWithBadKey (Session.initial Int)).encryptionKey = none ∧
      (connectToMain sampleSteps joinWithBadKey (Session.initial Int)).connectedMain = false :=
  ⟨(session_key_invariant sampleSteps [.connect joinWithKey]).1, by decide,
    ((session_key_invariant sampleSteps [.connect joinWithKey]).2.1 joinWithBadKey
      { privateKey := 2, publicKey := 2 } (some "AB12CD34".toList) (some "token".toList)
      "00".toList rfl rfl cryptoFails_sample).1,
    ((session_key_invariant sampleSteps [.connect joinWithKey]).2.2 joinWithBadKey
      { privateKey := 2, publicKey := 2 } (some "AB12CD34".toList) (some "token".toList)
      "00".toList rfl rfl cryptoFails_sample).1,
    ((session_key_invariant sampleSteps [.connect joinWithKey]).2.2 joinWithBadKey
      { privateKey := 2, publicKey := 2 } (some "AB12CD34".toList) (some "token".toList)
      "00".toList rfl rfl cryptoFails_sample).2⟩
/-! # The reconnection after a close -/

/-- C17 fails on the code.  After a first join without the key of the main the
client has a connection code and waits for the key, and `connectedMain` is
still false: the close handler schedules no reconnection.  After the key has
come and the exchange is done, it schedules one. -/
theorem joined_close_no_reconnect :
    truthy (sessionRun sampleSteps (Session.initial Int)
        [.connect joinWithoutKey]).connectionCode = true ∧
      (sessionRun sampleSteps (Session.initial Int) [.connect joinWithoutKey]).waits
        = [.pending] ∧
      (sessionRun sampleSteps (Session.initial Int) [.connect joinWithoutKey, .close]).timers
        = [.waitTimeout 0] ∧
      (sessionRun sampleSteps (Session.initial Int) [.connect joinWithoutKey, .close]).log
        = [.showError [], .setupWebSocket, .setTimeout (.waitTimeout 0) 60000] ∧
      (sessionRun sampleSteps (Session.initial Int)
        [.connect joinWithoutKey, .message (receiverKeyAvailable "03".toList) (.data none),
          .close]).log
        = [.showError [], .setupWebSocket, .setTimeout (.waitTimeout 0) 60000,
            .keyExchange "03".toList, .fingerprint "alpha alpha alpha".toList,
            .setTimeout .setupWebSocket 2000] := by
  decide

/-- C17 (amended).  When the notification channel closes, the close handler
schedules a reconnection after 2 seconds exactly when `connectionCode` is set
and `connectedMain` is true, that is once a key exchange has completed, and
otherwise schedules nothing; the wait for the key of the main does not change
`connectedMain`, so a close during the wait is answered as a close before the
call of `waitForMainPublicKey` would be, and in the initial state nothing is
scheduled. -/
theorem onClose_reconnect {G : Type} (s : Session G) (dhKeyPair : KeyPair G) :
    (onClose s).timers
        = (if truthy s.connectionCode && s.connectedMain then s.timers ++ [.setupWebSocket]
            else s.timers) ∧
      (onClose s).log
        = (if truthy s.connectionCode && s.connectedMain
            then s.log ++ [.setTimeout .setupWebSocket 2000] else s.log) ∧
      (waitForMainPublicKey s dhKeyPair).connectedMain = s.connectedMain ∧
      (waitForMainPublicKey s dhKeyPair).connectionCode = s.connectionCode ∧
      (onClose (Session.initial G)).timers = [] ∧ (onClose (Session.initial G)).log = [] := by
  refine ⟨?_, ?_, ?_, ?_, rfl, rfl⟩
  · unfold onClose
    simp only [Session.setTimeout]
    split <;> rfl
  · unfold onClose
    simp only [Session.setTimeout]
    split <;> rfl
  · unfold waitForMainPublicKey
    simp only [Session.setTimeout, Session.emit]
    split <;> rfl
  · unfold waitForMainPublicKey
    simp only [Session.setTimeout, Session.emit]
    split <;> rfl

end ReverseQR
